import Mathlib

/-!
Verification of the optimization engine and stack-machine code generator
(`src/compiler/codegen/codegen.js`: classes `CodeGenerator`,
`CodeGenerationResult`, `Optimizer`, `OptimizationResult`).

Modelling conventions:
* JavaScript numbers are modelled as exact rationals (`Rat`); literal values,
  stored as strings in the JS tree and parsed with `parseFloat`, are carried
  directly as their parsed rational value.  The JS remainder operator `%`
  (sign of the dividend) is modelled by `jsRem` below.
* The JS tree nodes are a tagged union; the node-kind tag (`node.type`)
  becomes the constructor, and `typeName` recovers the tag string.
* Mutation of the shared result object is modelled by explicit state passing;
  a thrown JS exception is modelled by an `Option String` error component
  (the state component keeps the mutations performed before the throw, as
  the JS `this.result` object does).
* `deepCloneAST` / `deepCloneNode` (`JSON.parse(JSON.stringify(...))`) are
  identities on immutable values and are therefore dropped.
* Timing statistics, the optimization log's timestamps, and the derived
  counters (`instructionCount` = number of instructions, etc.) are omitted;
  only the per-category optimization counters, which drive the fixed-point
  loop, are kept.
-/

/-- Parse-tree nodes, after `src/compiler/parser` / the demo ASTs.  The code
generator recognises the tag `Literal`, the optimizer produces and consumes
the tag `NumericLiteral`; both are kept as distinct constructors. -/
inductive Node where
  | program (body : List Node)
  | variableDeclaration (declarations : List Node)
  | variableDeclarator (id : String) (init : Option Node)
  | assignmentExpression (left : Node) (right : Node)
  | binaryExpression (op : String) (left : Node) (right : Node)
  | unaryExpression (op : String) (argument : Node)
  | literal (value : Rat)
  | numericLiteral (value : Rat)
  | identifier (name : String)
  | ifStatement (test : Node) (consequent : Node) (alternate : Option Node)
  | whileStatement (test : Node) (body : Node)
  | blockStatement (body : List Node)
  | expressionStatement (expression : Node)
  | printStatement (expression : Node)

/-- The JS `node.type` tag string of a node. -/
def typeName : Node → String
  | .program _ => "Program"
  | .variableDeclaration _ => "VariableDeclaration"
  | .variableDeclarator _ _ => "VariableDeclarator"
  | .assignmentExpression _ _ => "AssignmentExpression"
  | .binaryExpression _ _ _ => "BinaryExpression"
  | .unaryExpression _ _ => "UnaryExpression"
  | .literal _ => "Literal"
  | .numericLiteral _ => "NumericLiteral"
  | .identifier _ => "Identifier"
  | .ifStatement _ _ _ => "IfStatement"
  | .whileStatement _ _ => "WhileStatement"
  | .blockStatement _ => "BlockStatement"
  | .expressionStatement _ => "ExpressionStatement"
  | .printStatement _ => "PrintStatement"

/-- Truncation toward zero, as JS number-to-integer truncation. -/
def ratTrunc (q : Rat) : Int := if 0 ≤ q then ⌊q⌋ else ⌈q⌉

/-- The JavaScript `%` operator on (finite) numbers: remainder with the sign
of the dividend, `a - b * trunc(a / b)`. -/
def jsRem (a b : Rat) : Rat := a - b * (ratTrunc (a / b) : Int)

/-- Result of a `constantFolding` call: the rewritten (sub)tree, the number
of folds performed, and the warnings recorded (in order). -/
structure CFRes (α : Type) where
  val : α
  folds : Nat
  warns : List String
deriving Repr

/-- The `Optimizer.constantFolding` on an already-child-folded `BinaryExpression`
whose operand results are `a` and `b` (`a.val`, `b.val` are the folded
operands). Mirrors the `switch (optimizedNode.operator)` block. -/
def foldBinary (op : String) (a b : CFRes Node) : CFRes Node :=
  match a.val, b.val with
  | .numericLiteral x, .numericLiteral y =>
    if op = "+" then ⟨.numericLiteral (x + y), a.folds + b.folds + 1, a.warns ++ b.warns⟩
    else if op = "-" then ⟨.numericLiteral (x - y), a.folds + b.folds + 1, a.warns ++ b.warns⟩
    else if op = "*" then ⟨.numericLiteral (x * y), a.folds + b.folds + 1, a.warns ++ b.warns⟩
    else if op = "/" then
      if y ≠ 0 then ⟨.numericLiteral (x / y), a.folds + b.folds + 1, a.warns ++ b.warns⟩
      else ⟨.binaryExpression op (.numericLiteral x) (.numericLiteral y), a.folds + b.folds,
            a.warns ++ b.warns ++ ["Division by zero detected during constant folding"]⟩
    else if op = "%" then
      if y ≠ 0 then ⟨.numericLiteral (jsRem x y), a.folds + b.folds + 1, a.warns ++ b.warns⟩
      else ⟨.binaryExpression op (.numericLiteral x) (.numericLiteral y), a.folds + b.folds,
            a.warns ++ b.warns ++ ["Modulo by zero detected during constant folding"]⟩
    else ⟨.binaryExpression op (.numericLiteral x) (.numericLiteral y), a.folds + b.folds,
          a.warns ++ b.warns⟩
  | l, r => ⟨.binaryExpression op l r, a.folds + b.folds, a.warns ++ b.warns⟩

mutual

/-- The `Optimizer.constantFolding`: recursively fold all children (the
`Object.keys` walk), then fold a `BinaryExpression` whose two operands are
both `NumericLiteral`. -/
def constantFolding : Node → CFRes Node
  | .program body =>
    let r := constantFoldingList body
    ⟨.program r.val, r.folds, r.warns⟩
  | .variableDeclaration decls =>
    let r := constantFoldingList decls
    ⟨.variableDeclaration r.val, r.folds, r.warns⟩
  | .variableDeclarator id init =>
    let r := constantFoldingOpt init
    ⟨.variableDeclarator id r.val, r.folds, r.warns⟩
  | .assignmentExpression l r =>
    let a := constantFolding l
    let b := constantFolding r
    ⟨.assignmentExpression a.val b.val, a.folds + b.folds, a.warns ++ b.warns⟩
  | .binaryExpression op l r =>
    foldBinary op (constantFolding l) (constantFolding r)
  | .unaryExpression op arg =>
    let a := constantFolding arg
    ⟨.unaryExpression op a.val, a.folds, a.warns⟩
  | .literal v => ⟨.literal v, 0, []⟩
  | .numericLiteral v => ⟨.numericLiteral v, 0, []⟩
  | .identifier n => ⟨.identifier n, 0, []⟩
  | .ifStatement t c alt =>
    let a := constantFolding t
    let b := constantFolding c
    let d := constantFoldingOpt alt
    ⟨.ifStatement a.val b.val d.val, a.folds + b.folds + d.folds, a.warns ++ b.warns ++ d.warns⟩
  | .whileStatement t b =>
    let a := constantFolding t
    let c := constantFolding b
    ⟨.whileStatement a.val c.val, a.folds + c.folds, a.warns ++ c.warns⟩
  | .blockStatement body =>
    let r := constantFoldingList body
    ⟨.blockStatement r.val, r.folds, r.warns⟩
  | .expressionStatement e =>
    let a := constantFolding e
    ⟨.expressionStatement a.val, a.folds, a.warns⟩
  | .printStatement e =>
    let a := constantFolding e
    ⟨.printStatement a.val, a.folds, a.warns⟩

/-- Child-array traversal of `constantFolding` (the `Array.isArray` branch). -/
def constantFoldingList : List Node → CFRes (List Node)
  | [] => ⟨[], 0, []⟩
  | t :: ts =>
    let a := constantFolding t
    let r := constantFoldingList ts
    ⟨a.val :: r.val, a.folds + r.folds, a.warns ++ r.warns⟩

/-- Optional-child traversal of `constantFolding`. -/
def constantFoldingOpt : Option Node → CFRes (Option Node)
  | none => ⟨none, 0, []⟩
  | some t =>
    let a := constantFolding t
    ⟨some a.val, a.folds, a.warns⟩

end

/-- Result of a counting pass (algebraic simplification / dead code
elimination): rewritten value plus the number of rewrites. -/
structure CntRes (α : Type) where
  val : α
  cnt : Nat
deriving Repr

/-- Whether a node is a `NumericLiteral` with the given parsed value
(the JS test `x.type === 'NumericLiteral' && parseFloat(x.value) === v`). -/
def isNumLit (t : Node) (v : Rat) : Bool :=
  match t with
  | .numericLiteral x => x = v
  | _ => false

/-- The `Optimizer.algebraicSimplification` on an already-simplified
`BinaryExpression`: the identity chain `x+0`, `0+x`, `x-0`, `x*1`, `1*x`,
`x*0`/`0*x`, `x/1`, tried in source order. -/
def simplifyBinary (op : String) (a b : CntRes Node) : CntRes Node :=
  if op = "+" ∧ isNumLit b.val 0 then ⟨a.val, a.cnt + b.cnt + 1⟩
  else if op = "+" ∧ isNumLit a.val 0 then ⟨b.val, a.cnt + b.cnt + 1⟩
  else if op = "-" ∧ isNumLit b.val 0 then ⟨a.val, a.cnt + b.cnt + 1⟩
  else if op = "*" ∧ isNumLit b.val 1 then ⟨a.val, a.cnt + b.cnt + 1⟩
  else if op = "*" ∧ isNumLit a.val 1 then ⟨b.val, a.cnt + b.cnt + 1⟩
  else if op = "*" ∧ (isNumLit b.val 0 ∨ isNumLit a.val 0) then
    ⟨.numericLiteral 0, a.cnt + b.cnt + 1⟩
  else if op = "/" ∧ isNumLit b.val 1 then ⟨a.val, a.cnt + b.cnt + 1⟩
  else ⟨.binaryExpression op a.val b.val, a.cnt + b.cnt⟩

mutual

/-- The `Optimizer.algebraicSimplification`: recursively simplify all children,
then apply the literal-identity patterns to a `BinaryExpression`. -/
def algebraicSimplification : Node → CntRes Node
  | .program body =>
    let r := algebraicSimplificationList body
    ⟨.program r.val, r.cnt⟩
  | .variableDeclaration decls =>
    let r := algebraicSimplificationList decls
    ⟨.variableDeclaration r.val, r.cnt⟩
  | .variableDeclarator id init =>
    let r := algebraicSimplificationOpt init
    ⟨.variableDeclarator id r.val, r.cnt⟩
  | .assignmentExpression l r =>
    let a := algebraicSimplification l
    let b := algebraicSimplification r
    ⟨.assignmentExpression a.val b.val, a.cnt + b.cnt⟩
  | .binaryExpression op l r =>
    simplifyBinary op (algebraicSimplification l) (algebraicSimplification r)
  | .unaryExpression op arg =>
    let a := algebraicSimplification arg
    ⟨.unaryExpression op a.val, a.cnt⟩
  | .literal v => ⟨.literal v, 0⟩
  | .numericLiteral v => ⟨.numericLiteral v, 0⟩
  | .identifier n => ⟨.identifier n, 0⟩
  | .ifStatement t c alt =>
    let a := algebraicSimplification t
    let b := algebraicSimplification c
    let d := algebraicSimplificationOpt alt
    ⟨.ifStatement a.val b.val d.val, a.cnt + b.cnt + d.cnt⟩
  | .whileStatement t b =>
    let a := algebraicSimplification t
    let c := algebraicSimplification b
    ⟨.whileStatement a.val c.val, a.cnt + c.cnt⟩
  | .blockStatement body =>
    let r := algebraicSimplificationList body
    ⟨.blockStatement r.val, r.cnt⟩
  | .expressionStatement e =>
    let a := algebraicSimplification e
    ⟨.expressionStatement a.val, a.cnt⟩
  | .printStatement e =>
    let a := algebraicSimplification e
    ⟨.printStatement a.val, a.cnt⟩

/-- Child-array traversal of `algebraicSimplification`. -/
def algebraicSimplificationList : List Node → CntRes (List Node)
  | [] => ⟨[], 0⟩
  | t :: ts =>
    let a := algebraicSimplification t
    let r := algebraicSimplificationList ts
    ⟨a.val :: r.val, a.cnt + r.cnt⟩

/-- Optional-child traversal of `algebraicSimplification`. -/
def algebraicSimplificationOpt : Option Node → CntRes (Option Node)
  | none => ⟨none, 0⟩
  | some t =>
    let a := algebraicSimplification t
    ⟨some a.val, a.cnt⟩

end

/-- The `Optimizer.getExpressionKey`: canonical string key of an expression. -/
def getExpressionKey : Node → String
  | .binaryExpression op l r => getExpressionKey l ++ op ++ getExpressionKey r
  | .identifier n => n
  | .numericLiteral v => toString v
  | t => typeName t

mutual

/-- The `Optimizer.commonSubexpressionElimination`'s inner walk
(`findCommonExpressions`): visit children first, then record the key of a
`BinaryExpression` in the scratch map `seen`, counting a hit when the key is
already present.  Returns the (unchanged) node, the updated map, and the
number of hits. -/
def cseWalk : Node → List String → Node × List String × Nat
  | .program body, m =>
    let r := cseWalkList body m
    (.program r.1, r.2)
  | .variableDeclaration decls, m =>
    let r := cseWalkList decls m
    (.variableDeclaration r.1, r.2)
  | .variableDeclarator id init, m =>
    let r := cseWalkOpt init m
    (.variableDeclarator id r.1, r.2)
  | .assignmentExpression l r, m =>
    let a := cseWalk l m
    let b := cseWalk r a.2.1
    (.assignmentExpression a.1 b.1, b.2.1, a.2.2 + b.2.2)
  | .binaryExpression op l r, m =>
    let a := cseWalk l m
    let b := cseWalk r a.2.1
    let key := getExpressionKey (.binaryExpression op a.1 b.1)
    if b.2.1.contains key then
      (.binaryExpression op a.1 b.1, b.2.1, a.2.2 + b.2.2 + 1)
    else
      (.binaryExpression op a.1 b.1, key :: b.2.1, a.2.2 + b.2.2)
  | .unaryExpression op arg, m =>
    let a := cseWalk arg m
    (.unaryExpression op a.1, a.2)
  | .literal v, m => (.literal v, m, 0)
  | .numericLiteral v, m => (.numericLiteral v, m, 0)
  | .identifier n, m => (.identifier n, m, 0)
  | .ifStatement t c alt, m =>
    let a := cseWalk t m
    let b := cseWalk c a.2.1
    let d := cseWalkOpt alt b.2.1
    (.ifStatement a.1 b.1 d.1, d.2.1, a.2.2 + b.2.2 + d.2.2)
  | .whileStatement t b, m =>
    let a := cseWalk t m
    let c := cseWalk b a.2.1
    (.whileStatement a.1 c.1, c.2.1, a.2.2 + c.2.2)
  | .blockStatement body, m =>
    let r := cseWalkList body m
    (.blockStatement r.1, r.2)
  | .expressionStatement e, m =>
    let a := cseWalk e m
    (.expressionStatement a.1, a.2)
  | .printStatement e, m =>
    let a := cseWalk e m
    (.printStatement a.1, a.2)

/-- Child-array traversal of `cseWalk`. -/
def cseWalkList : List Node → List String → List Node × List String × Nat
  | [], m => ([], m, 0)
  | t :: ts, m =>
    let a := cseWalk t m
    let r := cseWalkList ts a.2.1
    (a.1 :: r.1, r.2.1, a.2.2 + r.2.2)

/-- Optional-child traversal of `cseWalk`. -/
def cseWalkOpt : Option Node → List String → Option Node × List String × Nat
  | none, m => (none, m, 0)
  | some t, m =>
    let a := cseWalk t m
    (some a.1, a.2)

end

/-- The `Optimizer.commonSubexpressionElimination`: run the walk with a fresh
scratch map; returns the tree and the number of repeated-key hits. -/
def commonSubexpressionElimination (t : Node) : CntRes Node :=
  let r := cseWalk t []
  ⟨r.1, r.2.2⟩

/-- The dead-statement test of `Optimizer.deadCodeElimination`: an
`ExpressionStatement` whose expression is a bare `NumericLiteral`. -/
def isDeadStatement : Node → Bool
  | .expressionStatement (.numericLiteral _) => true
  | _ => false

mutual

/-- The `Optimizer.deadCodeElimination`: on a `Program`, filter out statements
that are bare numeric-literal expression statements, then recurse into the
remaining statements; on any other node, recurse into all children.  (The
JS code filters the whole body first and then maps the recursion over the
kept statements; `deadCodeEliminationBody` fuses the two walks, which
yields the same statement list and the same total removal count.) -/
def deadCodeElimination : Node → CntRes Node
  | .program body =>
    let r := deadCodeEliminationBody body
    ⟨.program r.val, r.cnt⟩
  | .variableDeclaration decls =>
    let r := deadCodeEliminationList decls
    ⟨.variableDeclaration r.val, r.cnt⟩
  | .variableDeclarator id init =>
    let r := deadCodeEliminationOpt init
    ⟨.variableDeclarator id r.val, r.cnt⟩
  | .assignmentExpression l r =>
    let a := deadCodeElimination l
    let b := deadCodeElimination r
    ⟨.assignmentExpression a.val b.val, a.cnt + b.cnt⟩
  | .binaryExpression op l r =>
    let a := deadCodeElimination l
    let b := deadCodeElimination r
    ⟨.binaryExpression op a.val b.val, a.cnt + b.cnt⟩
  | .unaryExpression op arg =>
    let a := deadCodeElimination arg
    ⟨.unaryExpression op a.val, a.cnt⟩
  | .literal v => ⟨.literal v, 0⟩
  | .numericLiteral v => ⟨.numericLiteral v, 0⟩
  | .identifier n => ⟨.identifier n, 0⟩
  | .ifStatement t c alt =>
    let a := deadCodeElimination t
    let b := deadCodeElimination c
    let d := deadCodeEliminationOpt alt
    ⟨.ifStatement a.val b.val d.val, a.cnt + b.cnt + d.cnt⟩
  | .whileStatement t b =>
    let a := deadCodeElimination t
    let c := deadCodeElimination b
    ⟨.whileStatement a.val c.val, a.cnt + c.cnt⟩
  | .blockStatement body =>
    let r := deadCodeEliminationList body
    ⟨.blockStatement r.val, r.cnt⟩
  | .expressionStatement e =>
    let a := deadCodeElimination e
    ⟨.expressionStatement a.val, a.cnt⟩
  | .printStatement e =>
    let a := deadCodeElimination e
    ⟨.printStatement a.val, a.cnt⟩

/-- Child-array traversal of `deadCodeElimination`. -/
def deadCodeEliminationList : List Node → CntRes (List Node)
  | [] => ⟨[], 0⟩
  | t :: ts =>
    let a := deadCodeElimination t
    let r := deadCodeEliminationList ts
    ⟨a.val :: r.val, a.cnt + r.cnt⟩

/-- The `Program`-body walk of `deadCodeElimination`: drop dead statements
(counting each removal) and recurse into the kept ones. -/
def deadCodeEliminationBody : List Node → CntRes (List Node)
  | [] => ⟨[], 0⟩
  | s :: rest =>
    let r := deadCodeEliminationBody rest
    if isDeadStatement s then ⟨r.val, r.cnt + 1⟩
    else
      let a := deadCodeElimination s
      ⟨a.val :: r.val, a.cnt + r.cnt⟩

/-- Optional-child traversal of `deadCodeElimination`. -/
def deadCodeEliminationOpt : Option Node → CntRes (Option Node)
  | none => ⟨none, 0⟩
  | some t =>
    let a := deadCodeElimination t
    ⟨some a.val, a.cnt⟩

end

/-- The `Optimizer` configuration surface (constructor defaults). -/
structure OptOptions where
  enableConstantFolding : Bool := true
  enableAlgebraicSimplification : Bool := true
  enableCommonSubexpressionElimination : Bool := true
  enableDeadCodeElimination : Bool := true
  maxOptimizationPasses : Nat := 3

/-- The default `Optimizer` options. -/
def optDefaults : OptOptions := {}

/-- Outcome of one optimization round (`performOptimizationPass`): the tree
plus the per-category counter increments and warnings of that round. -/
structure PassOut where
  tree : Node
  folds : Nat
  simps : Nat
  cses : Nat
  deads : Nat
  warns : List String

/-- Total number of counter increments in a round (the growth of
`this.optimizationCount` that drives `hasChanges`). -/
def PassOut.total (p : PassOut) : Nat := p.folds + p.simps + p.cses + p.deads

/-- The folder stage of a round, gated by its enable flag. -/
def foldStage (o : OptOptions) (t : Node) : CFRes Node :=
  if o.enableConstantFolding then constantFolding t else ⟨t, 0, []⟩

/-- The simplifier stage of a round, gated by its enable flag. -/
def simplifyStage (o : OptOptions) (t : Node) : CntRes Node :=
  if o.enableAlgebraicSimplification then algebraicSimplification t else ⟨t, 0⟩

/-- The CSE-detector stage of a round, gated by its enable flag. -/
def cseStage (o : OptOptions) (t : Node) : CntRes Node :=
  if o.enableCommonSubexpressionElimination then commonSubexpressionElimination t
  else ⟨t, 0⟩

/-- The dead-code stage of a round, gated by its enable flag. -/
def dceStage (o : OptOptions) (t : Node) : CntRes Node :=
  if o.enableDeadCodeElimination then deadCodeElimination t else ⟨t, 0⟩

/-- The `Optimizer.performOptimizationPass`: folder → simplifier → CSE detector
→ dead-code pass, each gated by its enable flag, each consuming the previous
pass's output tree. -/
def performOptimizationPass (o : OptOptions) (t : Node) : PassOut :=
  let r1 := foldStage o t
  let r2 := simplifyStage o r1.val
  let r3 := cseStage o r2.val
  let r4 := dceStage o r3.val
  ⟨r4.val, r1.folds, r2.cnt, r3.cnt, r4.cnt, r1.warns⟩

/-- Outcome of `Optimizer.optimize`: success flag, final tree, accumulated
per-category counters and warnings, the number of rounds executed and the
total increment count of the last executed round. -/
structure OptimizeOut where
  success : Bool
  tree : Node
  folds : Nat
  simps : Nat
  cses : Nat
  deads : Nat
  warns : List String
  rounds : Nat
  lastRound : Nat

/-- Accumulated total of all counters of an optimization run. -/
def OptimizeOut.total (r : OptimizeOut) : Nat := r.folds + r.simps + r.cses + r.deads

/-- The `while (hasChanges && currentPass < max)` loop of
`Optimizer.optimize`, with `fuel` the number of rounds still allowed.
`hasChanges` starts true, so with fuel available one round always runs; the
loop continues while the round made some change and fuel remains. -/
def optimizeLoop (o : OptOptions) : Nat → Node → OptimizeOut
  | 0, t => ⟨true, t, 0, 0, 0, 0, [], 0, 0⟩
  | n + 1, t =>
    let p := performOptimizationPass o t
    if p.total = 0 ∨ n = 0 then
      ⟨true, p.tree, p.folds, p.simps, p.cses, p.deads, p.warns, 1, p.total⟩
    else
      let rest := optimizeLoop o n p.tree
      ⟨true, rest.tree, p.folds + rest.folds, p.simps + rest.simps, p.cses + rest.cses,
       p.deads + rest.deads, p.warns ++ rest.warns, rest.rounds + 1, rest.lastRound⟩

/-- The `Optimizer.optimize`: deep-clone (identity here), then run up to
`maxOptimizationPasses` rounds; `success` is set to true on (exception-free)
completion. -/
def optimize (o : OptOptions) (t : Node) : OptimizeOut :=
  optimizeLoop o o.maxOptimizationPasses t

/-- The tree reached after `k` optimization rounds (ignoring the early-exit
condition); round `k+1` of the driver operates on `passIter o k t`. -/
def passIter (o : OptOptions) : Nat → Node → Node
  | 0, t => t
  | k + 1, t => passIter o k (performOptimizationPass o t).tree

/-- The target-machine opcode vocabulary (`INSTRUCTION_SET`). -/
inductive Opcode where
  | LOAD | STORE | LOAD_VAR
  | ADD | SUB | MUL | DIV | MOD | NEG
  | EQ | NE | LT | LE | GT | GE
  | AND | OR | NOT
  | JMP | JZ | JNZ | CALL | RET
  | PUSH | POP | DUP
  | HALT | PRINT | INPUT
deriving DecidableEq, Repr

/-- Rendering of an opcode (its JS string value). -/
def opcodeName : Opcode → String
  | .LOAD => "LOAD" | .STORE => "STORE" | .LOAD_VAR => "LOAD_VAR"
  | .ADD => "ADD" | .SUB => "SUB" | .MUL => "MUL" | .DIV => "DIV" | .MOD => "MOD"
  | .NEG => "NEG"
  | .EQ => "EQ" | .NE => "NE" | .LT => "LT" | .LE => "LE" | .GT => "GT" | .GE => "GE"
  | .AND => "AND" | .OR => "OR" | .NOT => "NOT"
  | .JMP => "JMP" | .JZ => "JZ" | .JNZ => "JNZ" | .CALL => "CALL" | .RET => "RET"
  | .PUSH => "PUSH" | .POP => "POP" | .DUP => "DUP"
  | .HALT => "HALT" | .PRINT => "PRINT" | .INPUT => "INPUT"

/-- An instruction operand: a number (immediate value or variable address)
or a label name. At every use site `none` is the JS `null`; note that
`addInstruction`'s ES6 default parameter (`operand = null`) also turns an
explicitly passed `undefined` argument — such as a missing symbol-table
lookup — into `null`, so no instruction ever carries `undefined`. -/
inductive Operand where
  | num (v : Rat)
  | str (s : String)
deriving DecidableEq, Repr

/-- One emitted instruction (`CodeGenerationResult.addInstruction`):
its address (the stream index at the time it was appended), opcode,
optional operand (`none` is the JS `null`) and comment. -/
structure Instr where
  address : Nat
  opcode : Opcode
  operand : Option Operand
  comment : String
deriving DecidableEq, Repr

/-- The mutable generation state inside one `CodeGenerator.generate` run:
the fields of `this.result` that generation writes, plus the label counter. -/
structure CGState where
  instructions : List Instr
  symbolTable : List (String × Nat)
  labelTable : List (String × Nat)
  warnings : List String
  labelCounter : Nat
deriving Repr

/-- The `CodeGenerationResult.addInstruction`: append an instruction whose
address is the current stream length. In the JS the signature is
`addInstruction(opcode, operand = null, comment = '')`, so a caller passing
`undefined` (e.g. a failed `Map.get`) stores `null`; the model's callers
therefore pass `none` in exactly those cases. -/
def addInstruction (s : CGState) (op : Opcode) (operand : Option Operand)
    (comment : String) : CGState :=
  { s with instructions :=
      s.instructions ++ [⟨s.instructions.length, op, operand, comment⟩] }

/-- The `CodeGenerationResult.addLabel`: record the current stream length as the
label's address. -/
def addLabel (s : CGState) (name : String) : CGState :=
  { s with labelTable := s.labelTable ++ [(name, s.instructions.length)] }

/-- The `this.result.symbolTable.get(name)` — `none` is the JS `undefined`. -/
def lookupVar (s : CGState) (name : String) : Option Nat :=
  s.symbolTable.lookup name

/-- The `switch (operator)` of `generateBinaryExpression`: the opcode for a
supported binary operator, `none` for an unsupported one. -/
def binaryOpcode : String → Option Opcode
  | "+" => some .ADD
  | "-" => some .SUB
  | "*" => some .MUL
  | "/" => some .DIV
  | "%" => some .MOD
  | "==" => some .EQ
  | "!=" => some .NE
  | "<" => some .LT
  | "<=" => some .LE
  | ">" => some .GT
  | ">=" => some .GE
  | "&&" => some .AND
  | "||" => some .OR
  | _ => none

/-- The `switch (operator)` of `generateUnaryExpression`. -/
def unaryOpcode : String → Option Opcode
  | "-" => some .NEG
  | "!" => some .NOT
  | _ => none

/-- The `CodeGenerator.generateBinaryExpression`'s operator dispatch, applied
after both operands have been generated: emit the matching opcode, or throw
for an unsupported operator (in which case nothing is emitted). -/
def emitBinaryOperator (op : String) (s : CGState) : CGState × Option String :=
  match binaryOpcode op with
  | some oc => (addInstruction s oc none (op ++ " 运算"), none)
  | none => (s, some ("不支持的二元运算符: " ++ op))

/-- The `CodeGenerator.generateUnaryExpression`'s operator dispatch. -/
def emitUnaryOperator (op : String) (s : CGState) : CGState × Option String :=
  match unaryOpcode op with
  | some oc => (addInstruction s oc none (op ++ " 运算"), none)
  | none => (s, some ("不支持的一元运算符: " ++ op))

/-- The `STORE` operand of `generateVariableDeclaration`: the raw
symbol-table lookup result, passed straight to `addInstruction`. The JS
code performs no check and assigns no fresh address; when the name has no
entry the lookup is `undefined`, which `addInstruction`'s default parameter
(`operand = null`) converts to `null` — hence `none` here. -/
def declStoreOperand (s : CGState) (name : String) : Option Operand :=
  match lookupVar s name with
  | some a => some (.num (a : Nat))
  | none => none

mutual

/-- The `CodeGenerator.generateNode`: dispatch on the node tag; unknown tags
(including `NumericLiteral`) append a non-fatal warning and emit nothing.
A thrown generation error is the `some`-message component; the state
component keeps everything emitted before the throw. -/
def generateNode : Node → CGState → CGState × Option String
  | .program body, s => generateNodeList body s
  | .variableDeclaration decls, s => generateDeclarations decls s
  | .assignmentExpression l r, s =>
    match generateNode r s with
    | (s1, some e) => (s1, some e)
    | (s1, none) =>
      match l with
      | .identifier name =>
        match lookupVar s1 name with
        | some addr =>
          (addInstruction s1 .STORE (some (.num (addr : Nat))) ("赋值给变量 " ++ name), none)
        | none => (s1, some ("未定义的变量: " ++ name))
      | _ => (s1, none)
  | .binaryExpression op l r, s =>
    match generateNode l s with
    | (s1, some e) => (s1, some e)
    | (s1, none) =>
      match generateNode r s1 with
      | (s2, some e) => (s2, some e)
      | (s2, none) => emitBinaryOperator op s2
  | .unaryExpression op arg, s =>
    match generateNode arg s with
    | (s1, some e) => (s1, some e)
    | (s1, none) => emitUnaryOperator op s1
  | .literal v, s =>
    (addInstruction s .LOAD (some (.num v)) ("加载常量 " ++ toString v), none)
  | .identifier name, s =>
    match lookupVar s name with
    | some addr =>
      (addInstruction s .LOAD_VAR (some (.num (addr : Nat))) ("加载变量 " ++ name), none)
    | none => (s, some ("未定义的变量: " ++ name))
  | .ifStatement t c alt, s =>
    let elseLabel := "else_" ++ toString s.labelCounter
    let endLabel := "endif_" ++ toString (s.labelCounter + 1)
    let s0 := { s with labelCounter := s.labelCounter + 2 }
    match generateNode t s0 with
    | (s1, some e) => (s1, some e)
    | (s1, none) =>
      let s2 := addInstruction s1 .JZ (some (.str elseLabel)) "if条件为假时跳转"
      match generateNode c s2 with
      | (s3, some e) => (s3, some e)
      | (s3, none) =>
        let s4 := addInstruction s3 .JMP (some (.str endLabel)) "跳转到if语句结束"
        let s5 := addLabel s4 elseLabel
        match generateNodeOpt alt s5 with
        | (s6, some e) => (s6, some e)
        | (s6, none) => (addLabel s6 endLabel, none)
  | .whileStatement t b, s =>
    let loopLabel := "loop_" ++ toString s.labelCounter
    let endLabel := "endloop_" ++ toString (s.labelCounter + 1)
    let s0 := { s with labelCounter := s.labelCounter + 2 }
    let s1 := addLabel s0 loopLabel
    match generateNode t s1 with
    | (s2, some e) => (s2, some e)
    | (s2, none) =>
      let s3 := addInstruction s2 .JZ (some (.str endLabel)) "while条件为假时跳出循环"
      match generateNode b s3 with
      | (s4, some e) => (s4, some e)
      | (s4, none) =>
        let s5 := addInstruction s4 .JMP (some (.str loopLabel)) "跳回循环开始"
        (addLabel s5 endLabel, none)
  | .blockStatement body, s => generateNodeList body s
  | .expressionStatement e, s =>
    match generateNode e s with
    | (s1, some err) => (s1, some err)
    | (s1, none) => (addInstruction s1 .POP none "弹出表达式结果", none)
  | .printStatement e, s =>
    match generateNode e s with
    | (s1, some err) => (s1, some err)
    | (s1, none) => (addInstruction s1 .PRINT none "打印输出", none)
  | .numericLiteral v, s =>
    ({ s with warnings :=
        s.warnings ++ ["不支持的节点类型: " ++ typeName (.numericLiteral v)] }, none)
  | .variableDeclarator id init, s =>
    ({ s with warnings :=
        s.warnings ++ ["不支持的节点类型: " ++ typeName (.variableDeclarator id init)] }, none)

/-- Sequential generation of a statement list (`generateProgram` /
`generateBlockStatement` bodies); a thrown error aborts the walk. -/
def generateNodeList : List Node → CGState → CGState × Option String
  | [], s => (s, none)
  | t :: ts, s =>
    match generateNode t s with
    | (s1, some e) => (s1, some e)
    | (s1, none) => generateNodeList ts s1

/-- The `CodeGenerator.generateVariableDeclaration`: for each declarator with an
initializer, generate the initializer and emit `STORE` with the raw
symbol-table lookup as operand; declarators without initializer (and
non-declarator entries) emit nothing. -/
def generateDeclarations : List Node → CGState → CGState × Option String
  | [], s => (s, none)
  | .variableDeclarator name (some init) :: rest, s =>
    match generateNode init s with
    | (s1, some e) => (s1, some e)
    | (s1, none) =>
      let s2 := addInstruction s1 .STORE (declStoreOperand s1 name) ("存储到变量 " ++ name)
      generateDeclarations rest s2
  | _ :: rest, s => generateDeclarations rest s

/-- Generation of an optional child (the `if (node.alternate)` branch). -/
def generateNodeOpt : Option Node → CGState → CGState × Option String
  | none, s => (s, none)
  | some t, s => generateNode t s

end

/-- The `CodeGenerator` configuration surface (constructor defaults). -/
structure CGOptions where
  optimizeCode : Bool := true
  generateComments : Bool := true

/-- The default `CodeGenerator` options. -/
def cgDefaults : CGOptions := {}

/-- The outcome record of a `CodeGenerator.generate` run
(`CodeGenerationResult`, with the derived statistics omitted). -/
structure GenResult where
  success : Bool
  instructions : List Instr
  assembly : String
  symbolTable : List (String × Nat)
  labelTable : List (String × Nat)
  errors : List String
  warnings : List String
deriving Repr

/-- The `CodeGenerator.initializeSymbolTable`: assign consecutive addresses
(from 0) to the entries of the external symbol table whose kind is
`"variable"`, in iteration order. -/
def initSymbols : List (String × String) → Nat → List (String × Nat)
  | [], _ => []
  | (n, ty) :: rest, a =>
    if ty = "variable" then (n, a) :: initSymbols rest (a + 1) else initSymbols rest a

/-- The `padStart(4, '0')` of the decimal rendering of an address. -/
def pad4 (s : String) : String :=
  if s.length ≥ 4 then s else String.mk (List.replicate (4 - s.length) '0') ++ s

/-- Rendering of an operand value into the assembly text. -/
def operandText : Operand → String
  | .num v => toString v
  | .str s => s

/-- One assembly line of an instruction
(`generateAssembly`'s per-instruction formatting; the operand is rendered
whenever it is not `null`, and a non-empty comment is appended). -/
def renderInstruction (i : Instr) : String :=
  pad4 (toString i.address) ++ ": " ++ opcodeName i.opcode ++
  (match i.operand with
   | none => ""
   | some o => " " ++ operandText o) ++
  (if i.comment = "" then "" else " ; " ++ i.comment)

/-- The line list of `CodeGenerationResult.generateAssembly`: two header
comments and a blank line, the symbol-table block when non-empty, then one
line per instruction in stream order. -/
def assemblyLines (symbolTable : List (String × Nat)) (instrs : List Instr) : List String :=
  ["; 编译器生成的汇编代码", "; 目标机：基于栈的虚拟机", ""] ++
  (if symbolTable.length > 0 then
    "; 符号表:" :: (symbolTable.map fun p => "; " ++ p.1 ++ " -> " ++ toString p.2) ++ [""]
   else []) ++
  instrs.map renderInstruction

/-- The `CodeGenerationResult.generateAssembly`: the lines joined with `\n`. -/
def generateAssembly (symbolTable : List (String × Nat)) (instrs : List Instr) : String :=
  String.intercalate "\n" (assemblyLines symbolTable instrs)

/-- The splice loop of `CodeGenerator.optimizeInstructions`: scan left to
right; on `PUSH` immediately followed by `POP`, delete both and re-examine
the same position (`splice(i, 2)` followed by `i--`). -/
def peepholeScan : List Instr → List Instr
  | [] => []
  | [a] => [a]
  | a :: b :: rest =>
    if a.opcode = .PUSH ∧ b.opcode = .POP then peepholeScan rest
    else a :: peepholeScan (b :: rest)

/-- The `CodeGenerator.updateInstructionAddresses`: rewrite every instruction's
address to its index (the label table is rewritten with its old values,
i.e. left unchanged). -/
def updateInstructionAddresses : Nat → List Instr → List Instr
  | _, [] => []
  | n, i :: rest => { i with address := n } :: updateInstructionAddresses (n + 1) rest

/-- The `CodeGenerator.optimizeInstructions`: run the peephole splice loop; if
some pair was removed (the `optimized` flag — equivalently, the length
shrank), recompute all addresses. -/
def optimizeInstructions (l : List Instr) : List Instr :=
  let l2 := peepholeScan l
  if l2.length = l.length then l2 else updateInstructionAddresses 0 l2

/-- Position `i` of a stream holds a `PUSH` immediately followed by a `POP`
— the pattern the peephole pass deletes, stated over the positions of the
*input* stream. -/
def adjacentPushPop (l : List Instr) (i : Nat) : Bool :=
  decide ((l.get? i).map Instr.opcode = some Opcode.PUSH) &&
  decide ((l.get? (i + 1)).map Instr.opcode = some Opcode.POP)

/-- Position `j` of the input stream belongs to an initially adjacent
`PUSH`/`POP` pair: it is the `PUSH` of such a pair, or the `POP` right
after such a `PUSH`. (Adjacent pairs cannot overlap — the second member of
one is a `POP`, the first member of another a `PUSH` — so this is
unambiguous.) -/
def removedIndex (l : List Instr) (j : Nat) : Bool :=
  adjacentPushPop l j || (decide (0 < j) && adjacentPushPop l (j - 1))

/-- The instruction a position contributes to the post-peephole stream:
nothing when the position belongs to an initially adjacent `PUSH`/`POP`
pair, the instruction there otherwise. -/
def survivorsFun (l : List Instr) (j : Nat) : Option Instr :=
  if removedIndex l j then none else l.get? j

/-- The input stream with both members of every initially adjacent
`PUSH`/`POP` pair deleted: the instructions at the non-pair positions, in
input order. -/
def survivors (l : List Instr) : List Instr :=
  (List.range l.length).filterMap (survivorsFun l)

/-- The generation state right after `generateProgramEntry`: seeded symbol
table and the `PUSH 0` prologue instruction. -/
def entryState (symtab : Option (List (String × String))) : CGState :=
  addInstruction
    ⟨[], (match symtab with | some st => initSymbols st 0 | none => []), [], [], 0⟩
    .PUSH (some (.num 0)) "程序开始，初始化栈帧"

/-- The `CodeGenerator.generate`: seed the symbol table, emit the `PUSH 0`
prologue, generate the tree, emit the `HALT` epilogue, render the assembly
text, and only then run the peephole pass (the rendering is **not**
redone afterwards); a thrown generation error skips everything after the
tree walk and produces a failed outcome whose assembly is still the empty
string it was initialised to. -/
def generate (o : CGOptions) (ast : Node) (symtab : Option (List (String × String))) :
    GenResult :=
  let s1 := entryState symtab
  match generateNode ast s1 with
  | (s2, some e) =>
    ⟨false, s2.instructions, "", s2.symbolTable, s2.labelTable, [e], s2.warnings⟩
  | (s2, none) =>
    let s3 := addInstruction s2 .HALT none "程序结束"
    let asmText := generateAssembly s3.symbolTable s3.instructions
    let finalInstrs :=
      if o.optimizeCode then optimizeInstructions s3.instructions else s3.instructions
    ⟨true, finalInstrs, asmText, s3.symbolTable, s3.labelTable, [], s3.warnings⟩

/-- A tree with a duplicated binary subexpression `x + y`, used to exercise
the CSE detector and the round limit. -/
def dupNode : Node :=
  .program [.expressionStatement (.binaryExpression "+" (.identifier "x") (.identifier "y")),
            .expressionStatement (.binaryExpression "+" (.identifier "x") (.identifier "y"))]

/-- The instruction stream of `generate` on
`ExpressionStatement(NumericLiteral 42)` as it stands when the assembly is
rendered, i.e. before the peephole pass. -/
def prePeepholeStream : List Instr :=
  [⟨0, .PUSH, some (.num 0), "程序开始，初始化栈帧"⟩,
   ⟨1, .POP, none, "弹出表达式结果"⟩,
   ⟨2, .HALT, none, "程序结束"⟩]

/-- State `s2` extends the instruction stream of `s` using no `HALT`
opcode. -/
def NoHaltExt (s s2 : CGState) : Prop :=
  ∀ i ∈ s2.instructions, i ∈ s.instructions ∨ i.opcode ≠ Opcode.HALT

mutual

/-- The CSE walk returns its input tree unchanged, whatever the scratch map
holds. -/
theorem cseWalk_val : ∀ (t : Node) (m : List String), (cseWalk t m).1 = t
  | .program body, m => by
    simp only [cseWalk]
    exact congrArg Node.program (cseWalkList_val body m)
  | .variableDeclaration decls, m => by
    simp only [cseWalk]
    exact congrArg Node.variableDeclaration (cseWalkList_val decls m)
  | .variableDeclarator id init, m => by
    simp only [cseWalk]
    rw [cseWalkOpt_val init m]
  | .assignmentExpression l r, m => by
    simp only [cseWalk]
    rw [cseWalk_val l m, cseWalk_val r ((cseWalk l m).2.1)]
  | .binaryExpression op l r, m => by
    simp only [cseWalk]
    split <;> rw [cseWalk_val l m, cseWalk_val r ((cseWalk l m).2.1)]
  | .unaryExpression op arg, m => by
    simp only [cseWalk]
    rw [cseWalk_val arg m]
  | .literal v, m => rfl
  | .numericLiteral v, m => rfl
  | .identifier n, m => rfl
  | .ifStatement t c alt, m => by
    simp only [cseWalk]
    rw [cseWalk_val t m, cseWalk_val c ((cseWalk t m).2.1),
      cseWalkOpt_val alt ((cseWalk c ((cseWalk t m).2.1)).2.1)]
  | .whileStatement t b, m => by
    simp only [cseWalk]
    rw [cseWalk_val t m, cseWalk_val b ((cseWalk t m).2.1)]
  | .blockStatement body, m => by
    simp only [cseWalk]
    exact congrArg Node.blockStatement (cseWalkList_val body m)
  | .expressionStatement e, m => by
    simp only [cseWalk]
    rw [cseWalk_val e m]
  | .printStatement e, m => by
    simp only [cseWalk]
    rw [cseWalk_val e m]

/-- List version of `cseWalk_val`. -/
theorem cseWalkList_val : ∀ (l : List Node) (m : List String), (cseWalkList l m).1 = l
  | [], _ => rfl
  | t :: ts, m => by
    simp only [cseWalkList]
    rw [cseWalk_val t m, cseWalkList_val ts ((cseWalk t m).2.1)]

/-- Option version of `cseWalk_val`. -/
theorem cseWalkOpt_val : ∀ (o : Option Node) (m : List String), (cseWalkOpt o m).1 = o
  | none, _ => rfl
  | some t, m => by
    simp only [cseWalkOpt]
    rw [cseWalk_val t m]

end

/-- The `foldBinary` either rebuilds the node from its operand results without
counting, or counts exactly one fold. -/
theorem foldBinary_spec (op : String) (a b : CFRes Node) :
    ((foldBinary op a b).folds = a.folds + b.folds ∧
     (foldBinary op a b).val = .binaryExpression op a.val b.val) ∨
    (foldBinary op a b).folds = a.folds + b.folds + 1 := by
  obtain ⟨av, af, aw⟩ := a
  obtain ⟨bv, bf, bw⟩ := b
  cases av <;> cases bv <;> simp [foldBinary] <;> split_ifs <;> simp

mutual

/-- A `constantFolding` call that reports zero folds returns its input tree
unchanged. -/
theorem constantFolding_fix : ∀ t : Node,
    (constantFolding t).folds = 0 → (constantFolding t).val = t
  | .program body => by
    intro h
    simp only [constantFolding] at h ⊢
    rw [constantFoldingList_fix body h]
  | .variableDeclaration decls => by
    intro h
    simp only [constantFolding] at h ⊢
    rw [constantFoldingList_fix decls h]
  | .variableDeclarator id init => by
    intro h
    simp only [constantFolding] at h ⊢
    rw [constantFoldingOpt_fix init h]
  | .assignmentExpression l r => by
    intro h
    simp only [constantFolding] at h ⊢
    rw [constantFolding_fix l (by omega), constantFolding_fix r (by omega)]
  | .binaryExpression op l r => by
    intro h
    simp only [constantFolding] at h ⊢
    rcases foldBinary_spec op (constantFolding l) (constantFolding r) with ⟨hf, hv⟩ | hf
    · rw [hv, constantFolding_fix l (by omega), constantFolding_fix r (by omega)]
    · omega
  | .unaryExpression op arg => by
    intro h
    simp only [constantFolding] at h ⊢
    rw [constantFolding_fix arg h]
  | .literal v => fun _ => rfl
  | .numericLiteral v => fun _ => rfl
  | .identifier n => fun _ => rfl
  | .ifStatement t c alt => by
    intro h
    simp only [constantFolding] at h ⊢
    rw [constantFolding_fix t (by omega), constantFolding_fix c (by omega),
      constantFoldingOpt_fix alt (by omega)]
  | .whileStatement t b => by
    intro h
    simp only [constantFolding] at h ⊢
    rw [constantFolding_fix t (by omega), constantFolding_fix b (by omega)]
  | .blockStatement body => by
    intro h
    simp only [constantFolding] at h ⊢
    rw [constantFoldingList_fix body h]
  | .expressionStatement e => by
    intro h
    simp only [constantFolding] at h ⊢
    rw [constantFolding_fix e h]
  | .printStatement e => by
    intro h
    simp only [constantFolding] at h ⊢
    rw [constantFolding_fix e h]

/-- List version of `constantFolding_fix`. -/
theorem constantFoldingList_fix : ∀ l : List Node,
    (constantFoldingList l).folds = 0 → (constantFoldingList l).val = l
  | [] => fun _ => rfl
  | t :: ts => by
    intro h
    simp only [constantFoldingList] at h ⊢
    rw [constantFolding_fix t (by omega), constantFoldingList_fix ts (by omega)]

/-- Option version of `constantFolding_fix`. -/
theorem constantFoldingOpt_fix : ∀ o : Option Node,
    (constantFoldingOpt o).folds = 0 → (constantFoldingOpt o).val = o
  | none => fun _ => rfl
  | some t => by
    intro h
    simp only [constantFoldingOpt] at h ⊢
    rw [constantFolding_fix t h]

end

/-- The `simplifyBinary` either rebuilds the node from its operand results
without counting, or counts exactly one simplification. -/
theorem simplifyBinary_spec (op : String) (a b : CntRes Node) :
    ((simplifyBinary op a b).cnt = a.cnt + b.cnt ∧
     (simplifyBinary op a b).val = .binaryExpression op a.val b.val) ∨
    (simplifyBinary op a b).cnt = a.cnt + b.cnt + 1 := by
  unfold simplifyBinary
  split_ifs <;> simp

mutual

/-- An `algebraicSimplification` call that reports zero simplifications
returns its input tree unchanged. -/
theorem algebraicSimplification_fix : ∀ t : Node,
    (algebraicSimplification t).cnt = 0 → (algebraicSimplification t).val = t
  | .program body => by
    intro h
    simp only [algebraicSimplification] at h ⊢
    rw [algebraicSimplificationList_fix body h]
  | .variableDeclaration decls => by
    intro h
    simp only [algebraicSimplification] at h ⊢
    rw [algebraicSimplificationList_fix decls h]
  | .variableDeclarator id init => by
    intro h
    simp only [algebraicSimplification] at h ⊢
    rw [algebraicSimplificationOpt_fix init h]
  | .assignmentExpression l r => by
    intro h
    simp only [algebraicSimplification] at h ⊢
    rw [algebraicSimplification_fix l (by omega), algebraicSimplification_fix r (by omega)]
  | .binaryExpression op l r => by
    intro h
    simp only [algebraicSimplification] at h ⊢
    rcases simplifyBinary_spec op (algebraicSimplification l) (algebraicSimplification r) with
      ⟨hf, hv⟩ | hf
    · rw [hv, algebraicSimplification_fix l (by omega), algebraicSimplification_fix r (by omega)]
    · omega
  | .unaryExpression op arg => by
    intro h
    simp only [algebraicSimplification] at h ⊢
    rw [algebraicSimplification_fix arg h]
  | .literal v => fun _ => rfl
  | .numericLiteral v => fun _ => rfl
  | .identifier n => fun _ => rfl
  | .ifStatement t c alt => by
    intro h
    simp only [algebraicSimplification] at h ⊢
    rw [algebraicSimplification_fix t (by omega), algebraicSimplification_fix c (by omega),
      algebraicSimplificationOpt_fix alt (by omega)]
  | .whileStatement t b => by
    intro h
    simp only [algebraicSimplification] at h ⊢
    rw [algebraicSimplification_fix t (by omega), algebraicSimplification_fix b (by omega)]
  | .blockStatement body => by
    intro h
    simp only [algebraicSimplification] at h ⊢
    rw [algebraicSimplificationList_fix body h]
  | .expressionStatement e => by
    intro h
    simp only [algebraicSimplification] at h ⊢
    rw [algebraicSimplification_fix e h]
  | .printStatement e => by
    intro h
    simp only [algebraicSimplification] at h ⊢
    rw [algebraicSimplification_fix e h]

/-- List version of `algebraicSimplification_fix`. -/
theorem algebraicSimplificationList_fix : ∀ l : List Node,
    (algebraicSimplificationList l).cnt = 0 → (algebraicSimplificationList l).val = l
  | [] => fun _ => rfl
  | t :: ts => by
    intro h
    simp only [algebraicSimplificationList] at h ⊢
    rw [algebraicSimplification_fix t (by omega), algebraicSimplificationList_fix ts (by omega)]

/-- Option version of `algebraicSimplification_fix`. -/
theorem algebraicSimplificationOpt_fix : ∀ o : Option Node,
    (algebraicSimplificationOpt o).cnt = 0 → (algebraicSimplificationOpt o).val = o
  | none => fun _ => rfl
  | some t => by
    intro h
    simp only [algebraicSimplificationOpt] at h ⊢
    rw [algebraicSimplification_fix t h]

end

mutual

/-- A `deadCodeElimination` call that reports zero removals returns its
input tree unchanged. -/
theorem deadCodeElimination_fix : ∀ t : Node,
    (deadCodeElimination t).cnt = 0 → (deadCodeElimination t).val = t
  | .program body => by
    intro h
    simp only [deadCodeElimination] at h ⊢
    rw [deadCodeEliminationBody_fix body h]
  | .variableDeclaration decls => by
    intro h
    simp only [deadCodeElimination] at h ⊢
    rw [deadCodeEliminationList_fix decls h]
  | .variableDeclarator id init => by
    intro h
    simp only [deadCodeElimination] at h ⊢
    rw [deadCodeEliminationOpt_fix init h]
  | .assignmentExpression l r => by
    intro h
    simp only [deadCodeElimination] at h ⊢
    rw [deadCodeElimination_fix l (by omega), deadCodeElimination_fix r (by omega)]
  | .binaryExpression op l r => by
    intro h
    simp only [deadCodeElimination] at h ⊢
    rw [deadCodeElimination_fix l (by omega), deadCodeElimination_fix r (by omega)]
  | .unaryExpression op arg => by
    intro h
    simp only [deadCodeElimination] at h ⊢
    rw [deadCodeElimination_fix arg h]
  | .literal v => fun _ => rfl
  | .numericLiteral v => fun _ => rfl
  | .identifier n => fun _ => rfl
  | .ifStatement t c alt => by
    intro h
    simp only [deadCodeElimination] at h ⊢
    rw [deadCodeElimination_fix t (by omega), deadCodeElimination_fix c (by omega),
      deadCodeEliminationOpt_fix alt (by omega)]
  | .whileStatement t b => by
    intro h
    simp only [deadCodeElimination] at h ⊢
    rw [deadCodeElimination_fix t (by omega), deadCodeElimination_fix b (by omega)]
  | .blockStatement body => by
    intro h
    simp only [deadCodeElimination] at h ⊢
    rw [deadCodeEliminationList_fix body h]
  | .expressionStatement e => by
    intro h
    simp only [deadCodeElimination] at h ⊢
    rw [deadCodeElimination_fix e h]
  | .printStatement e => by
    intro h
    simp only [deadCodeElimination] at h ⊢
    rw [deadCodeElimination_fix e h]

/-- List version of `deadCodeElimination_fix`. -/
theorem deadCodeEliminationList_fix : ∀ l : List Node,
    (deadCodeEliminationList l).cnt = 0 → (deadCodeEliminationList l).val = l
  | [] => fun _ => rfl
  | t :: ts => by
    intro h
    simp only [deadCodeEliminationList] at h ⊢
    rw [deadCodeElimination_fix t (by omega), deadCodeEliminationList_fix ts (by omega)]

/-- The `Program`-body version of `deadCodeElimination_fix`: zero removals means
no statement was filtered out and every kept statement is unchanged. -/
theorem deadCodeEliminationBody_fix : ∀ l : List Node,
    (deadCodeEliminationBody l).cnt = 0 → (deadCodeEliminationBody l).val = l
  | [] => fun _ => rfl
  | s :: rest => by
    intro h
    simp only [deadCodeEliminationBody] at h ⊢
    by_cases hd : isDeadStatement s = true
    · simp only [if_pos hd] at h
      omega
    · simp only [if_neg hd] at h ⊢
      rw [deadCodeElimination_fix s (by omega), deadCodeEliminationBody_fix rest (by omega)]

/-- Option version of `deadCodeElimination_fix`. -/
theorem deadCodeEliminationOpt_fix : ∀ o : Option Node,
    (deadCodeEliminationOpt o).cnt = 0 → (deadCodeEliminationOpt o).val = o
  | none => fun _ => rfl
  | some t => by
    intro h
    simp only [deadCodeEliminationOpt] at h ⊢
    rw [deadCodeElimination_fix t h]

end

/-- A fold stage that reports zero folds leaves the tree unchanged. -/
theorem foldStage_fix (o : OptOptions) (t : Node) (h : (foldStage o t).folds = 0) :
    (foldStage o t).val = t := by
  unfold foldStage at h ⊢
  by_cases hf : o.enableConstantFolding = true
  · simp only [if_pos hf] at h ⊢
    exact constantFolding_fix t h
  · simp only [if_neg hf]

/-- A simplifier stage that reports zero simplifications leaves the tree
unchanged. -/
theorem simplifyStage_fix (o : OptOptions) (t : Node) (h : (simplifyStage o t).cnt = 0) :
    (simplifyStage o t).val = t := by
  unfold simplifyStage at h ⊢
  by_cases hf : o.enableAlgebraicSimplification = true
  · simp only [if_pos hf] at h ⊢
    exact algebraicSimplification_fix t h
  · simp only [if_neg hf]

/-- The CSE-detector stage always leaves the tree unchanged. -/
theorem cseStage_val (o : OptOptions) (t : Node) : (cseStage o t).val = t := by
  unfold cseStage commonSubexpressionElimination
  by_cases hf : o.enableCommonSubexpressionElimination = true
  · simp only [if_pos hf]
    exact cseWalk_val t []
  · simp only [if_neg hf]

/-- A dead-code stage that reports zero removals leaves the tree unchanged. -/
theorem dceStage_fix (o : OptOptions) (t : Node) (h : (dceStage o t).cnt = 0) :
    (dceStage o t).val = t := by
  unfold dceStage at h ⊢
  by_cases hf : o.enableDeadCodeElimination = true
  · simp only [if_pos hf] at h ⊢
    exact deadCodeElimination_fix t h
  · simp only [if_neg hf]

/-- A round that increments no counter leaves the tree unchanged. -/
theorem performOptimizationPass_fix (o : OptOptions) (t : Node)
    (h : (performOptimizationPass o t).total = 0) :
    (performOptimizationPass o t).tree = t := by
  simp only [performOptimizationPass, PassOut.total] at h ⊢
  have e1 : (foldStage o t).val = t := foldStage_fix o t (by omega)
  rw [e1] at h ⊢
  have e2 : (simplifyStage o t).val = t := simplifyStage_fix o t (by omega)
  rw [e2] at h ⊢
  have e3 : (cseStage o t).val = t := cseStage_val o t
  rw [e3] at h ⊢
  exact dceStage_fix o t (by omega)

/-- The driver loop always reports success (no exception can occur in this
embedding). -/
theorem optimizeLoop_success (o : OptOptions) : ∀ (fuel : Nat) (t : Node),
    (optimizeLoop o fuel t).success = true
  | 0, _ => rfl
  | n + 1, t => by
    simp only [optimizeLoop]
    split <;> rfl

/-- The driver loop executes at most `fuel` rounds. -/
theorem optimizeLoop_rounds_le (o : OptOptions) : ∀ (fuel : Nat) (t : Node),
    (optimizeLoop o fuel t).rounds ≤ fuel
  | 0, _ => Nat.le_refl 0
  | n + 1, t => by
    simp only [optimizeLoop]
    split
    · show 1 ≤ n + 1
      omega
    · have := optimizeLoop_rounds_le o n (performOptimizationPass o t).tree
      show (optimizeLoop o n (performOptimizationPass o t).tree).rounds + 1 ≤ n + 1
      omega

/-- When every round up to the fuel bound makes a change, the loop executes
exactly `fuel` rounds. -/
theorem optimizeLoop_rounds_eq (o : OptOptions) : ∀ (fuel : Nat) (t : Node),
    (∀ k, k < fuel → 0 < (performOptimizationPass o (passIter o k t)).total) →
    (optimizeLoop o fuel t).rounds = fuel
  | 0, _ => fun _ => rfl
  | n + 1, t => by
    intro h
    have h0 := h 0 (Nat.succ_pos n)
    simp only [passIter] at h0
    simp only [optimizeLoop]
    by_cases hc : (performOptimizationPass o t).total = 0 ∨ n = 0
    · rcases hc with hc | hc
      · omega
      · simp only [if_pos (Or.inr hc)]
        show 1 = n + 1
        omega
    · simp only [if_neg hc]
      have hrec := optimizeLoop_rounds_eq o n (performOptimizationPass o t).tree
        (fun k hk => by
          have hs := h (k + 1) (by omega)
          simpa [passIter] using hs)
      show (optimizeLoop o n (performOptimizationPass o t).tree).rounds + 1 = n + 1
      omega

/-- If the last executed round made no change, either no round ran at all
(zero fuel) or one further round on the final tree makes no change. -/
theorem optimizeLoop_lastRound_zero (o : OptOptions) : ∀ (fuel : Nat) (t : Node),
    (optimizeLoop o fuel t).lastRound = 0 →
    fuel = 0 ∨ (performOptimizationPass o (optimizeLoop o fuel t).tree).total = 0
  | 0, _ => fun _ => Or.inl rfl
  | n + 1, t => by
    intro h
    simp only [optimizeLoop] at h ⊢
    by_cases hc : (performOptimizationPass o t).total = 0 ∨ n = 0
    · simp only [if_pos hc] at h ⊢
      right
      rw [performOptimizationPass_fix o t h]
      exact h
    · simp only [if_neg hc] at h ⊢
      rcases optimizeLoop_lastRound_zero o n (performOptimizationPass o t).tree h with h1 | h2
      · exact absurd h1 (fun hn => hc (Or.inr hn))
      · exact Or.inr h2

/-- The peephole splice loop never lengthens the stream. -/
theorem peepholeScan_length_le : ∀ l : List Instr, (peepholeScan l).length ≤ l.length
  | [] => Nat.le_refl 0
  | [_] => Nat.le_refl 1
  | a :: b :: rest => by
    simp only [peepholeScan]
    split
    · have := peepholeScan_length_le rest
      simp only [List.length_cons]
      omega
    · have := peepholeScan_length_le (b :: rest)
      simp only [List.length_cons] at this ⊢
      omega

/-- If the stream contains an adjacent `PUSH`/`POP` pair, the splice loop
shortens it by at least two instructions. -/
theorem peepholeScan_pair_length : ∀ (l : List Instr) (i : Nat),
    (l.get? i).map Instr.opcode = some .PUSH →
    (l.get? (i + 1)).map Instr.opcode = some .POP →
    (peepholeScan l).length + 2 ≤ l.length
  | [], i => by simp
  | [a], i => by
    intro h1 h2
    rcases i with _ | j
    · simp at h2
    · simp at h1
  | a :: b :: rest, 0 => by
    intro h1 h2
    have ha : a.opcode = .PUSH := by simpa using h1
    have hb : b.opcode = .POP := by simpa using h2
    simp only [peepholeScan, if_pos (And.intro ha hb)]
    have := peepholeScan_length_le rest
    simp only [List.length_cons]
    omega
  | a :: b :: rest, j + 1 => by
    intro h1 h2
    simp only [peepholeScan]
    split
    · have := peepholeScan_length_le rest
      simp only [List.length_cons]
      omega
    · have := peepholeScan_pair_length (b :: rest) j (by simpa using h1) (by simpa using h2)
      simp only [List.length_cons] at this ⊢
      omega

/-- Renumbering preserves the stream length. -/
theorem updateInstructionAddresses_length : ∀ (n : Nat) (l : List Instr),
    (updateInstructionAddresses n l).length = l.length
  | _, [] => rfl
  | n, i :: rest => by
    simp only [updateInstructionAddresses, List.length_cons,
      updateInstructionAddresses_length (n + 1) rest]

/-- After renumbering from `n`, the instruction at index `j` carries address
`n + j`. -/
theorem updateInstructionAddresses_get : ∀ (n : Nat) (l : List Instr) (j : Nat) (inst : Instr),
    (updateInstructionAddresses n l).get? j = some inst → inst.address = n + j
  | _, [], j, inst => by simp [updateInstructionAddresses]
  | n, i :: rest, 0, inst => by
    intro h
    simp only [updateInstructionAddresses, List.get?_cons_zero, Option.some_inj] at h
    subst h
    simp
  | n, i :: rest, j + 1, inst => by
    intro h
    simp only [updateInstructionAddresses, List.get?_cons_succ] at h
    have := updateInstructionAddresses_get (n + 1) rest j inst h
    omega

/-- Pointwise-equal functions produce equal `filterMap`s. -/
theorem filterMap_ext_mem {α β : Type} (f g : α → Option β) :
    ∀ l : List α, (∀ a ∈ l, f a = g a) → l.filterMap f = l.filterMap g
  | [], _ => rfl
  | a :: l, h => by
    have hhead := h a (List.mem_cons_self a l)
    have htail := filterMap_ext_mem f g l fun b hb => h b (List.mem_cons_of_mem a hb)
    simp only [List.filterMap_cons, hhead, htail]

/-- The adjacent-pair test shifts across a `cons`. -/
theorem adjacentPushPop_cons_succ (x : Instr) (l : List Instr) (j : Nat) :
    adjacentPushPop (x :: l) (j + 1) = adjacentPushPop l j := by
  simp [adjacentPushPop]

/-- Peeling a kept head off `survivors`. -/
theorem survivors_cons_kept (x : Instr) (l : List Instr)
    (h0 : removedIndex (x :: l) 0 = false)
    (hs : ∀ j, removedIndex (x :: l) (j + 1) = removedIndex l j) :
    survivors (x :: l) = x :: survivors l := by
  have hf0 : survivorsFun (x :: l) 0 = some x := by
    simp [survivorsFun, h0]
  have hcomp : ∀ j ∈ List.range l.length,
      (survivorsFun (x :: l) ∘ Nat.succ) j = survivorsFun l j := by
    intro j _
    simp only [Function.comp_apply, Nat.succ_eq_add_one, survivorsFun, hs j,
      List.get?_cons_succ]
  unfold survivors
  rw [List.length_cons, List.range_succ_eq_map, List.filterMap_cons_some hf0,
    List.filterMap_map, filterMap_ext_mem _ _ _ hcomp]

/-- Peeling a deleted adjacent pair off `survivors`: when positions `0` and
`1` are both removed and the removal test shifts by two onto the tail, the
two heads are dropped. -/
theorem survivors_cons_pair (a b : Instr) (rest : List Instr)
    (h0 : removedIndex (a :: b :: rest) 0 = true)
    (h1 : removedIndex (a :: b :: rest) 1 = true)
    (hs : ∀ j, removedIndex (a :: b :: rest) (j + 2) = removedIndex rest j) :
    survivors (a :: b :: rest) = survivors rest := by
  have hf0 : survivorsFun (a :: b :: rest) 0 = none := by
    simp [survivorsFun, h0]
  have hf1 : (survivorsFun (a :: b :: rest) ∘ Nat.succ) 0 = none := by
    simp [survivorsFun, h1]
  have hcomp : ∀ j ∈ List.range rest.length,
      ((survivorsFun (a :: b :: rest) ∘ Nat.succ) ∘ Nat.succ) j
        = survivorsFun rest j := by
    intro j _
    simp only [Function.comp_apply, Nat.succ_eq_add_one, survivorsFun]
    rw [show j + 1 + 1 = j + 2 from rfl, hs j, show j + 2 = j + 1 + 1 from rfl,
      List.get?_cons_succ, List.get?_cons_succ]
  unfold survivors
  rw [List.length_cons, List.length_cons, List.range_succ_eq_map,
    List.filterMap_cons_none hf0, List.filterMap_map, List.range_succ_eq_map,
    List.filterMap_cons_none hf1, List.filterMap_map,
    filterMap_ext_mem _ _ _ hcomp]

/-- The peephole splice loop keeps exactly the instructions at the
positions outside the initially adjacent `PUSH`/`POP` pairs: a pair that
was adjacent in the input is always deleted (chained pairs included), and a
deletion never creates a new deletion — a pair that only becomes adjacent
through a deletion lies behind the scan position and survives. -/
theorem peepholeScan_eq_survivors : ∀ l : List Instr, peepholeScan l = survivors l
  | [] => by simp [peepholeScan, survivors]
  | [a] => by
    simp [peepholeScan, survivors, survivorsFun, removedIndex, adjacentPushPop,
      List.range_succ, List.filterMap_cons]
  | a :: b :: rest => by
    simp only [peepholeScan]
    split
    · next hp =>
      have hap0 : adjacentPushPop (a :: b :: rest) 0 = true := by
        simp [adjacentPushPop, hp.1, hp.2]
      have hap1 : adjacentPushPop (a :: b :: rest) 1 = false := by
        simp [adjacentPushPop, hp.2]
      have h0 : removedIndex (a :: b :: rest) 0 = true := by
        simp [removedIndex, hap0]
      have h1 : removedIndex (a :: b :: rest) 1 = true := by
        simp [removedIndex, hap0]
      have hs : ∀ j, removedIndex (a :: b :: rest) (j + 2) = removedIndex rest j := by
        intro j
        have e2 : adjacentPushPop (a :: b :: rest) (j + 2) = adjacentPushPop rest j := by
          rw [show j + 2 = (j + 1) + 1 from rfl, adjacentPushPop_cons_succ,
            adjacentPushPop_cons_succ]
        have e1 : adjacentPushPop (a :: b :: rest) (j + 1)
            = adjacentPushPop (b :: rest) j := adjacentPushPop_cons_succ a (b :: rest) j
        have e0 : adjacentPushPop (b :: rest) j
            = (decide (0 < j) && adjacentPushPop rest (j - 1)) := by
          cases j with
          | zero => simp [adjacentPushPop, hp.2]
          | succ m =>
            rw [adjacentPushPop_cons_succ, show m + 1 - 1 = m from rfl,
              decide_eq_true (Nat.zero_lt_succ m), Bool.true_and]
        simp only [removedIndex]
        rw [e2, show j + 2 - 1 = j + 1 from rfl, e1, e0,
          decide_eq_true (show 0 < j + 2 by omega), Bool.true_and]
      rw [peepholeScan_eq_survivors rest, survivors_cons_pair a b rest h0 h1 hs]
    · next hp =>
      have hap0 : adjacentPushPop (a :: b :: rest) 0 = false := by
        by_cases hA : a.opcode = Opcode.PUSH
        · have hB : ¬ b.opcode = Opcode.POP := fun hB => hp ⟨hA, hB⟩
          simp [adjacentPushPop, hA, hB]
        · simp [adjacentPushPop, hA]
      have h0 : removedIndex (a :: b :: rest) 0 = false := by
        simp [removedIndex, hap0]
      have hs : ∀ j, removedIndex (a :: b :: rest) (j + 1)
          = removedIndex (b :: rest) j := by
        intro j
        have e1 : adjacentPushPop (a :: b :: rest) (j + 1)
            = adjacentPushPop (b :: rest) j := adjacentPushPop_cons_succ a (b :: rest) j
        have e0 : (decide (0 < j + 1) && adjacentPushPop (a :: b :: rest) (j + 1 - 1))
            = (decide (0 < j) && adjacentPushPop (b :: rest) (j - 1)) := by
          cases j with
          | zero => simp [hap0]
          | succ m =>
            rw [show m + 1 + 1 - 1 = m + 1 from rfl, adjacentPushPop_cons_succ,
              show m + 1 - 1 = m from rfl, decide_eq_true (Nat.zero_lt_succ (m + 1)),
              decide_eq_true (Nat.zero_lt_succ m)]
        simp only [removedIndex]
        rw [e1, e0]
      rw [peepholeScan_eq_survivors (b :: rest), survivors_cons_kept a (b :: rest) h0 hs]

/-- The `NoHaltExt` relation is reflexive. -/
theorem noHaltExt_refl (s : CGState) : NoHaltExt s s := fun _ hi => Or.inl hi

/-- The `NoHaltExt` relation is transitive. -/
theorem noHaltExt_trans {s1 s2 s3 : CGState} (h12 : NoHaltExt s1 s2)
    (h23 : NoHaltExt s2 s3) : NoHaltExt s1 s3 := by
  intro i hi
  rcases h23 i hi with h | h
  · exact h12 i h
  · exact Or.inr h

/-- Appending a non-`HALT` instruction is a `NoHaltExt` step. -/
theorem noHaltExt_addInstruction (s : CGState) (op : Opcode) (x : Option Operand)
    (c : String) (hop : op ≠ Opcode.HALT) : NoHaltExt s (addInstruction s op x c) := by
  intro i hi
  simp only [addInstruction, List.mem_append, List.mem_singleton] at hi
  rcases hi with h | h
  · exact Or.inl h
  · subst h
    exact Or.inr hop

/-- A state transition that leaves the instruction stream unchanged is a
`NoHaltExt` step. -/
theorem noHaltExt_of_instructions_eq {s s2 : CGState}
    (h : s2.instructions = s.instructions) : NoHaltExt s s2 := fun i hi =>
  Or.inl (by rw [← h]; exact hi)

/-- No supported binary operator maps to `HALT`. -/
theorem binaryOpcode_ne_some_halt (op : String) : binaryOpcode op ≠ some Opcode.HALT := by
  unfold binaryOpcode
  split <;> simp

/-- No supported unary operator maps to `HALT`. -/
theorem unaryOpcode_ne_some_halt (op : String) : unaryOpcode op ≠ some Opcode.HALT := by
  unfold unaryOpcode
  split <;> simp

/-- The binary-operator dispatch never emits `HALT`. -/
theorem noHaltExt_emitBinaryOperator (op : String) (s : CGState) :
    NoHaltExt s (emitBinaryOperator op s).1 := by
  unfold emitBinaryOperator
  split
  case _ oc heq =>
    exact noHaltExt_addInstruction _ _ _ _
      (fun hoc => binaryOpcode_ne_some_halt op (by rw [heq, hoc]))
  case _ heq => exact noHaltExt_refl s

/-- The unary-operator dispatch never emits `HALT`. -/
theorem noHaltExt_emitUnaryOperator (op : String) (s : CGState) :
    NoHaltExt s (emitUnaryOperator op s).1 := by
  unfold emitUnaryOperator
  split
  case _ oc heq =>
    exact noHaltExt_addInstruction _ _ _ _
      (fun hoc => unaryOpcode_ne_some_halt op (by rw [heq, hoc]))
  case _ heq => exact noHaltExt_refl s

/-- Chaining step: append one non-`HALT` instruction after a `NoHaltExt`
prefix. -/
theorem noHaltExt_addInstruction_last {s s1 : CGState} (op : Opcode) (x : Option Operand)
    (c : String) (hop : op ≠ Opcode.HALT) (h : NoHaltExt s s1) :
    NoHaltExt s (addInstruction s1 op x c) :=
  noHaltExt_trans h (noHaltExt_addInstruction s1 op x c hop)

/-- Chaining step: placing a label emits nothing. -/
theorem noHaltExt_addLabel_last {s s1 : CGState} (n : String) (h : NoHaltExt s s1) :
    NoHaltExt s (addLabel s1 n) :=
  noHaltExt_trans h (noHaltExt_of_instructions_eq rfl)

mutual

/-- The tree walk of the code generator never emits a `HALT` instruction
(only the epilogue of `generate` does). -/
theorem generateNode_noHalt : ∀ (t : Node) (s : CGState), NoHaltExt s (generateNode t s).1
  | .program body, s => by
    simp only [generateNode]
    exact generateNodeList_noHalt body s
  | .variableDeclaration decls, s => by
    simp only [generateNode]
    exact generateDeclarations_noHalt decls s
  | .variableDeclarator id init, s => by
    simp only [generateNode]
    exact noHaltExt_of_instructions_eq rfl
  | .assignmentExpression l r, s => by
    have hr := generateNode_noHalt r s
    simp only [generateNode]
    split
    next s1 e heq =>
      rw [heq] at hr
      exact hr
    next s1 heq =>
      rw [heq] at hr
      split
      next name =>
        split
        next addr heq2 => exact noHaltExt_addInstruction_last _ _ _ (by decide) hr
        next heq2 => exact hr
      next => exact hr
  | .binaryExpression op l r, s => by
    have hl := generateNode_noHalt l s
    simp only [generateNode]
    split
    next s1 e heq =>
      rw [heq] at hl
      exact hl
    next s1 heq =>
      rw [heq] at hl
      have hr := generateNode_noHalt r s1
      split
      next s2 e heq2 =>
        rw [heq2] at hr
        exact noHaltExt_trans hl hr
      next s2 heq2 =>
        rw [heq2] at hr
        exact noHaltExt_trans hl (noHaltExt_trans hr (noHaltExt_emitBinaryOperator op s2))
  | .unaryExpression op arg, s => by
    have ha := generateNode_noHalt arg s
    simp only [generateNode]
    split
    next s1 e heq =>
      rw [heq] at ha
      exact ha
    next s1 heq =>
      rw [heq] at ha
      exact noHaltExt_trans ha (noHaltExt_emitUnaryOperator op s1)
  | .literal v, s => by
    simp only [generateNode]
    exact noHaltExt_addInstruction _ _ _ _ (by decide)
  | .numericLiteral v, s => by
    simp only [generateNode]
    exact noHaltExt_of_instructions_eq rfl
  | .identifier name, s => by
    simp only [generateNode]
    split
    next addr heq => exact noHaltExt_addInstruction _ _ _ _ (by decide)
    next heq => exact noHaltExt_refl s
  | .ifStatement t c alt, s => by
    simp only [generateNode]
    have h0 : NoHaltExt s { s with labelCounter := s.labelCounter + 2 } :=
      noHaltExt_of_instructions_eq rfl
    have ht := generateNode_noHalt t { s with labelCounter := s.labelCounter + 2 }
    split
    next s1 e heq =>
      rw [heq] at ht
      exact noHaltExt_trans h0 ht
    next s1 heq =>
      rw [heq] at ht
      have h1 : NoHaltExt s s1 := noHaltExt_trans h0 ht
      have hc := generateNode_noHalt c
        (addInstruction s1 Opcode.JZ
          (some (Operand.str ("else_" ++ toString s.labelCounter))) "if条件为假时跳转")
      split
      next s3 e heq2 =>
        rw [heq2] at hc
        exact noHaltExt_trans (noHaltExt_addInstruction_last _ _ _ (by decide) h1) hc
      next s3 heq2 =>
        rw [heq2] at hc
        have h3 : NoHaltExt s s3 :=
          noHaltExt_trans (noHaltExt_addInstruction_last _ _ _ (by decide) h1) hc
        have ha := generateNodeOpt_noHalt alt
          (addLabel
            (addInstruction s3 Opcode.JMP
              (some (Operand.str ("endif_" ++ toString (s.labelCounter + 1))))
              "跳转到if语句结束")
            ("else_" ++ toString s.labelCounter))
        split
        next s6 e heq3 =>
          rw [heq3] at ha
          exact noHaltExt_trans
            (noHaltExt_addLabel_last _ (noHaltExt_addInstruction_last _ _ _ (by decide) h3)) ha
        next s6 heq3 =>
          rw [heq3] at ha
          exact noHaltExt_addLabel_last _
            (noHaltExt_trans
              (noHaltExt_addLabel_last _
                (noHaltExt_addInstruction_last _ _ _ (by decide) h3)) ha)
  | .whileStatement t b, s => by
    simp only [generateNode]
    have h1 : NoHaltExt s
        (addLabel { s with labelCounter := s.labelCounter + 2 }
          ("loop_" ++ toString s.labelCounter)) :=
      noHaltExt_of_instructions_eq rfl
    have ht := generateNode_noHalt t
      (addLabel { s with labelCounter := s.labelCounter + 2 }
        ("loop_" ++ toString s.labelCounter))
    split
    next s2 e heq =>
      rw [heq] at ht
      exact noHaltExt_trans h1 ht
    next s2 heq =>
      rw [heq] at ht
      have h2 : NoHaltExt s s2 := noHaltExt_trans h1 ht
      have hb := generateNode_noHalt b
        (addInstruction s2 Opcode.JZ
          (some (Operand.str ("endloop_" ++ toString (s.labelCounter + 1))))
          "while条件为假时跳出循环")
      split
      next s4 e heq2 =>
        rw [heq2] at hb
        exact noHaltExt_trans (noHaltExt_addInstruction_last _ _ _ (by decide) h2) hb
      next s4 heq2 =>
        rw [heq2] at hb
        have h4 : NoHaltExt s s4 :=
          noHaltExt_trans (noHaltExt_addInstruction_last _ _ _ (by decide) h2) hb
        exact noHaltExt_addLabel_last _ (noHaltExt_addInstruction_last _ _ _ (by decide) h4)
  | .blockStatement body, s => by
    simp only [generateNode]
    exact generateNodeList_noHalt body s
  | .expressionStatement e, s => by
    have h1 := generateNode_noHalt e s
    simp only [generateNode]
    split
    next s1 err heq =>
      rw [heq] at h1
      exact h1
    next s1 heq =>
      rw [heq] at h1
      exact noHaltExt_addInstruction_last _ _ _ (by decide) h1
  | .printStatement e, s => by
    have h1 := generateNode_noHalt e s
    simp only [generateNode]
    split
    next s1 err heq =>
      rw [heq] at h1
      exact h1
    next s1 heq =>
      rw [heq] at h1
      exact noHaltExt_addInstruction_last _ _ _ (by decide) h1

/-- Statement-list version of `generateNode_noHalt`. -/
theorem generateNodeList_noHalt : ∀ (l : List Node) (s : CGState),
    NoHaltExt s (generateNodeList l s).1
  | [], s => noHaltExt_refl s
  | t :: ts, s => by
    have h1 := generateNode_noHalt t s
    simp only [generateNodeList]
    split
    next s1 e heq =>
      rw [heq] at h1
      exact h1
    next s1 heq =>
      rw [heq] at h1
      exact noHaltExt_trans h1 (generateNodeList_noHalt ts s1)

/-- Declaration-list version of `generateNode_noHalt`. -/
theorem generateDeclarations_noHalt : ∀ (l : List Node) (s : CGState),
    NoHaltExt s (generateDeclarations l s).1
  | [], s => noHaltExt_refl s
  | d :: rest, s => by
    cases d
    case variableDeclarator name init =>
      cases init
      case none =>
        simp only [generateDeclarations]
        exact generateDeclarations_noHalt rest s
      case some i =>
        have h1 := generateNode_noHalt i s
        simp only [generateDeclarations]
        split
        next s1 e heq =>
          rw [heq] at h1
          exact h1
        next s1 heq =>
          rw [heq] at h1
          exact noHaltExt_trans (noHaltExt_addInstruction_last _ _ _ (by decide) h1)
            (generateDeclarations_noHalt rest _)
    all_goals
      simp only [generateDeclarations]
      exact generateDeclarations_noHalt rest s

/-- Optional-child version of `generateNode_noHalt`. -/
theorem generateNodeOpt_noHalt : ∀ (o : Option Node) (s : CGState),
    NoHaltExt s (generateNodeOpt o s).1
  | none, s => noHaltExt_refl s
  | some t, s => by
    simp only [generateNodeOpt]
    exact generateNode_noHalt t s

end

/-- An error inside the first part of a statement list makes the trailing
statements irrelevant: the walk aborts at the throw. -/
theorem generateNodeList_append_of_error : ∀ (l1 l2 : List Node) (s : CGState) (e : String),
    (generateNodeList l1 s).2 = some e →
    generateNodeList (l1 ++ l2) s = generateNodeList l1 s
  | [], _, s, e => by
    intro h
    simp [generateNodeList] at h
  | t :: ts, l2, s, e => by
    intro h
    simp only [generateNodeList] at h
    simp only [List.cons_append, generateNodeList]
    rcases hg : generateNode t s with ⟨s1, e1⟩
    rw [hg] at h
    cases e1 with
    | some err => rfl
    | none => exact generateNodeList_append_of_error ts l2 s1 e h

/-- C1: folding a `BinaryExpression` whose operands are both `NumericLiteral`
yields a new `NumericLiteral` carrying the host-native value of
`left op right`, counting one fold — for `+`, `-`, `*` with *any* pair of
literals (including a zero right operand), and for `/` and `%` whenever the
right literal is non-zero; for `/` and `%` with a zero right literal the
node is returned structurally unchanged, no fold is counted, and a
division/modulo-by-zero warning is appended. -/
theorem constantFolding_binary_literal_ops (a b : Rat) :
    constantFolding (.binaryExpression "+" (.numericLiteral a) (.numericLiteral b)) =
      ⟨.numericLiteral (a + b), 1, []⟩ ∧
    constantFolding (.binaryExpression "-" (.numericLiteral a) (.numericLiteral b)) =
      ⟨.numericLiteral (a - b), 1, []⟩ ∧
    constantFolding (.binaryExpression "*" (.numericLiteral a) (.numericLiteral b)) =
      ⟨.numericLiteral (a * b), 1, []⟩ ∧
    (b ≠ 0 →
      constantFolding (.binaryExpression "/" (.numericLiteral a) (.numericLiteral b)) =
        ⟨.numericLiteral (a / b), 1, []⟩) ∧
    (b ≠ 0 →
      constantFolding (.binaryExpression "%" (.numericLiteral a) (.numericLiteral b)) =
        ⟨.numericLiteral (jsRem a b), 1, []⟩) ∧
    constantFolding (.binaryExpression "/" (.numericLiteral a) (.numericLiteral 0)) =
      ⟨.binaryExpression "/" (.numericLiteral a) (.numericLiteral 0), 0,
        ["Division by zero detected during constant folding"]⟩ ∧
    constantFolding (.binaryExpression "%" (.numericLiteral a) (.numericLiteral 0)) =
      ⟨.binaryExpression "%" (.numericLiteral a) (.numericLiteral 0), 0,
        ["Modulo by zero detected during constant folding"]⟩ := by
  refine ⟨?_, ?_, ?_, fun hb => ?_, fun hb => ?_, ?_, ?_⟩ <;>
    simp [constantFolding, foldBinary, *]

/-- Witness for `constantFolding_binary_literal_ops`: the `+` case at the
zero right literal `17 + 0`, and the `/` case at `17 / 5`, its non-zero
divisor hypothesis discharged concretely. -/
theorem constantFolding_binary_literal_ops_witness :
    constantFolding (.binaryExpression "+" (.numericLiteral 17) (.numericLiteral 0)) =
      ⟨.numericLiteral (17 + 0), 1, []⟩ ∧
    ((5 : Rat) ≠ 0 ∧
     constantFolding (.binaryExpression "/" (.numericLiteral 17) (.numericLiteral 5)) =
       ⟨.numericLiteral (17 / 5), 1, []⟩) :=
  ⟨(constantFolding_binary_literal_ops 17 0).1,
   by norm_num, (constantFolding_binary_literal_ops 17 5).2.2.2.1 (by norm_num)⟩

/-- C3 counterexample: the claim fails as stated.  On a program with the
duplicated subexpression `x + y` in two statements, the first driver run
leaves the tree unchanged (the CSE pass only detects), so a second
invocation again reports CSE hits: it counts 3 changes, not zero. -/
theorem optimize_rerun_changes_counterexample :
    (optimize optDefaults ((optimize optDefaults dupNode).tree)).cses = 3 ∧
    OptimizeOut.total (optimize optDefaults ((optimize optDefaults dupNode).tree)) ≠ 0 := by
  refine ⟨by decide, by decide⟩

/-- C3 (amended): if the first driver invocation converged — its last
executed round reported zero changes, rather than stopping at the round
cap — then a second invocation on its output tree reports zero additional
changes in every counter. -/
theorem optimize_idempotent_of_converged (o : OptOptions) (t : Node)
    (h : (optimize o t).lastRound = 0) :
    (optimize o ((optimize o t).tree)).folds = 0 ∧
    (optimize o ((optimize o t).tree)).simps = 0 ∧
    (optimize o ((optimize o t).tree)).cses = 0 ∧
    (optimize o ((optimize o t).tree)).deads = 0 ∧
    OptimizeOut.total (optimize o ((optimize o t).tree)) = 0 := by
  unfold optimize at h ⊢
  rcases optimizeLoop_lastRound_zero o o.maxOptimizationPasses t h with h0 | hp
  · rw [h0]
    simp [optimizeLoop, OptimizeOut.total]
  · generalize hT : (optimizeLoop o o.maxOptimizationPasses t).tree = T at hp ⊢
    cases hm : o.maxOptimizationPasses with
    | zero =>
      simp [optimizeLoop, OptimizeOut.total]
    | succ m =>
      simp only [optimizeLoop]
      rw [if_pos (Or.inl hp)]
      unfold PassOut.total at hp
      unfold OptimizeOut.total
      refine ⟨?_, ?_, ?_, ?_, ?_⟩
      · show (performOptimizationPass o T).folds = 0
        omega
      · show (performOptimizationPass o T).simps = 0
        omega
      · show (performOptimizationPass o T).cses = 0
        omega
      · show (performOptimizationPass o T).deads = 0
        omega
      · show (performOptimizationPass o T).folds + (performOptimizationPass o T).simps +
            (performOptimizationPass o T).cses + (performOptimizationPass o T).deads = 0
        omega

/-- Witness for `optimize_idempotent_of_converged` at the empty program. -/
theorem optimize_idempotent_of_converged_witness :
    (optimize optDefaults (Node.program [])).lastRound = 0 ∧
    OptimizeOut.total
      (optimize optDefaults ((optimize optDefaults (Node.program [])).tree)) = 0 :=
  ⟨by decide, (optimize_idempotent_of_converged optDefaults (Node.program [])
    (by decide)).2.2.2.2⟩

/-- C6: with the default `maxOptimizationPasses = 3`, every run executes at
most 3 rounds and returns success; on an input whose first three round
iterates each report a change, exactly 3 rounds are executed and the
outcome still has `success = true`. -/
theorem optimize_round_bound (t : Node)
    (h : ∀ k, k < 3 →
      0 < (performOptimizationPass optDefaults (passIter optDefaults k t)).total) :
    (∀ u : Node, (optimize optDefaults u).rounds ≤ 3 ∧
      (optimize optDefaults u).success = true) ∧
    (optimize optDefaults t).rounds = 3 ∧ (optimize optDefaults t).success = true := by
  refine ⟨fun u => ⟨?_, ?_⟩, ?_, ?_⟩
  · exact optimizeLoop_rounds_le optDefaults 3 u
  · exact optimizeLoop_success optDefaults 3 u
  · exact optimizeLoop_rounds_eq optDefaults 3 t h
  · exact optimizeLoop_success optDefaults 3 t

/-- Witness for `optimize_round_bound` on the duplicated-subexpression tree,
whose CSE hit recurs in every round. -/
theorem optimize_round_bound_witness :
    (∀ k, k < 3 →
      0 < (performOptimizationPass optDefaults (passIter optDefaults k dupNode)).total) ∧
    (optimize optDefaults dupNode).rounds = 3 ∧
    (optimize optDefaults dupNode).success = true :=
  ⟨by decide, (optimize_round_bound dupNode (by decide)).2⟩

/-- C7: on any stream with a `PUSH` at position `i` immediately followed by
a `POP`, the peephole pass deletes exactly the initially adjacent
`PUSH`/`POP` pairs: positions `i` and `i + 1` are among the removed
positions, the scan's output is precisely the instructions at the
non-removed positions in input order (so chained pairs such as
`PUSH POP PUSH POP` are all removed), the output is at least two
instructions shorter, and afterwards every instruction's stored address
equals its new index — each survivor's address is shifted down by two per
pair deleted before it. -/
theorem optimizeInstructions_pair_removed (l : List Instr) (i : Nat)
    (h1 : (l.get? i).map Instr.opcode = some .PUSH)
    (h2 : (l.get? (i + 1)).map Instr.opcode = some .POP) :
    removedIndex l i = true ∧
    removedIndex l (i + 1) = true ∧
    peepholeScan l = survivors l ∧
    optimizeInstructions l = updateInstructionAddresses 0 (survivors l) ∧
    (∀ (j : Nat) (inst : Instr),
      (optimizeInstructions l).get? j = some inst → inst.address = j) ∧
    (optimizeInstructions l).length + 2 ≤ l.length := by
  have hap : adjacentPushPop l i = true := by
    unfold adjacentPushPop
    rw [decide_eq_true h1, decide_eq_true h2]
    rfl
  have hlen := peepholeScan_pair_length l i h1 h2
  have hne : ¬ (peepholeScan l).length = l.length := by omega
  have hopt : optimizeInstructions l = updateInstructionAddresses 0 (peepholeScan l) := by
    unfold optimizeInstructions
    rw [if_neg hne]
  refine ⟨?_, ?_, peepholeScan_eq_survivors l, ?_, ?_, ?_⟩
  · simp only [removedIndex]
    rw [hap, Bool.true_or]
  · simp only [removedIndex]
    rw [show i + 1 - 1 = i from rfl, hap, decide_eq_true (Nat.zero_lt_succ i),
      Bool.true_and, Bool.or_true]
  · rw [hopt, peepholeScan_eq_survivors l]
  · intro j inst hj
    rw [hopt] at hj
    have := updateInstructionAddresses_get 0 (peepholeScan l) j inst hj
    omega
  · rw [hopt, updateInstructionAddresses_length]
    omega

/-- Witness for `optimizeInstructions_pair_removed` on a two-instruction
stream `PUSH 7; POP`. -/
theorem optimizeInstructions_pair_removed_witness :
    ((([⟨0, Opcode.PUSH, some (Operand.num 7), ""⟩,
        ⟨1, Opcode.POP, none, ""⟩] : List Instr).get? 0).map Instr.opcode =
      some Opcode.PUSH) ∧
    ((([⟨0, Opcode.PUSH, some (Operand.num 7), ""⟩,
        ⟨1, Opcode.POP, none, ""⟩] : List Instr).get? 1).map Instr.opcode =
      some Opcode.POP) ∧
    (removedIndex [⟨0, Opcode.PUSH, some (Operand.num 7), ""⟩,
        ⟨1, Opcode.POP, none, ""⟩] 0 = true ∧
     removedIndex [⟨0, Opcode.PUSH, some (Operand.num 7), ""⟩,
        ⟨1, Opcode.POP, none, ""⟩] 1 = true ∧
     peepholeScan [⟨0, Opcode.PUSH, some (Operand.num 7), ""⟩,
        ⟨1, Opcode.POP, none, ""⟩] =
       survivors [⟨0, Opcode.PUSH, some (Operand.num 7), ""⟩,
        ⟨1, Opcode.POP, none, ""⟩] ∧
     optimizeInstructions [⟨0, Opcode.PUSH, some (Operand.num 7), ""⟩,
        ⟨1, Opcode.POP, none, ""⟩] =
       updateInstructionAddresses 0
         (survivors [⟨0, Opcode.PUSH, some (Operand.num 7), ""⟩,
           ⟨1, Opcode.POP, none, ""⟩]) ∧
     (∀ (j : Nat) (inst : Instr),
       (optimizeInstructions [⟨0, Opcode.PUSH, some (Operand.num 7), ""⟩,
         ⟨1, Opcode.POP, none, ""⟩]).get? j = some inst → inst.address = j) ∧
     (optimizeInstructions [⟨0, Opcode.PUSH, some (Operand.num 7), ""⟩,
        ⟨1, Opcode.POP, none, ""⟩]).length + 2 ≤
       ([⟨0, Opcode.PUSH, some (Operand.num 7), ""⟩,
        ⟨1, Opcode.POP, none, ""⟩] : List Instr).length) :=
  ⟨by decide, by decide,
   optimizeInstructions_pair_removed _ 0 (by decide) (by decide)⟩

/-- C8: the common-subexpression detector returns a tree structurally
identical to its input — it only logs and counts repeated keys, and never
rewrites a node. -/
theorem commonSubexpressionElimination_structure_preserving (t : Node) :
    (commonSubexpressionElimination t).val = t := by
  unfold commonSubexpressionElimination
  exact cseWalk_val t []

/-- C2: the claim names a real contract the code misses.  On
`ExpressionStatement(NumericLiteral 42)` with the default options the run
succeeds and only `HALT` survives the peephole pass, yet the rendered
assembly — produced *before* the peephole pass and never re-rendered —
still shows all three pre-peephole instruction lines (`PUSH 0`, `POP`,
`HALT`): 6 lines in total (3 header lines + 3 instruction lines) instead
of 3 + 1. -/
theorem generate_assembly_rendered_before_peephole :
    (generate cgDefaults (.expressionStatement (.numericLiteral 42)) none).success = true ∧
    (generate cgDefaults (.expressionStatement (.numericLiteral 42))
      none).instructions.length = 1 ∧
    (generate cgDefaults (.expressionStatement (.numericLiteral 42))
      none).instructions.map Instr.opcode = [.HALT] ∧
    (generate cgDefaults (.expressionStatement (.numericLiteral 42)) none).assembly =
      generateAssembly [] prePeepholeStream ∧
    (assemblyLines [] prePeepholeStream).length = 6 :=
  ⟨by decide, by decide, by decide, by decide, by decide⟩

/-- C4: generating code for an `Identifier` whose name is absent from the
variable-address table fails: `success = false` with a single error whose
message contains the variable's name. -/
theorem generate_undefined_identifier (o : CGOptions) (name : String)
    (symtab : List (String × String))
    (h : (initSymbols symtab 0).lookup name = none) :
    (generate o (.identifier name) (some symtab)).success = false ∧
    (generate o (.identifier name) (some symtab)).errors = ["未定义的变量: " ++ name] ∧
    ∃ pre post, "未定义的变量: " ++ name = pre ++ name ++ post := by
  have hsym : (entryState (some symtab)).symbolTable = initSymbols symtab 0 := rfl
  have key : generateNode (.identifier name) (entryState (some symtab)) =
      (entryState (some symtab), some ("未定义的变量: " ++ name)) := by
    simp only [generateNode, lookupVar, hsym, h]
  refine ⟨?_, ?_, ⟨"未定义的变量: ", "", by simp⟩⟩ <;>
    · simp only [generate]
      rw [key]

/-- Witness for `generate_undefined_identifier`: `Identifier("q")` with an
empty symbol table. -/
theorem generate_undefined_identifier_witness :
    (initSymbols [] 0).lookup "q" = none ∧
    (generate cgDefaults (.identifier "q") (some [])).success = false ∧
    (generate cgDefaults (.identifier "q") (some [])).errors = ["未定义的变量: " ++ "q"] :=
  ⟨by decide, (generate_undefined_identifier cgDefaults "q" [] (by decide)).1,
    (generate_undefined_identifier cgDefaults "q" [] (by decide)).2.1⟩

/-- C5 counterexample: declaring `x` with initializer `10` and no pre-seeded
symbol-table entry does *not* assign a fresh address — the `undefined`
lookup result passes through `addInstruction`'s `operand = null` default
parameter, so the emitted `STORE`'s operand is `null` (absent, never
rendered), not a non-negative numeric address, and the run still reports
success. -/
theorem generate_declaration_no_fresh_address_counterexample :
    (generate cgDefaults
      (.variableDeclaration [.variableDeclarator "x" (some (.literal 10))])
        none).success = true ∧
    (generate cgDefaults
      (.variableDeclaration [.variableDeclarator "x" (some (.literal 10))])
        none).instructions.map Instr.opcode = [.PUSH, .LOAD, .STORE, .HALT] ∧
    ((generate cgDefaults
      (.variableDeclaration [.variableDeclarator "x" (some (.literal 10))])
        none).instructions.get? 2).map Instr.operand = some none ∧
    ¬ ∃ n : Nat, ((generate cgDefaults
      (.variableDeclaration [.variableDeclarator "x" (some (.literal 10))])
        none).instructions.get? 2).map Instr.operand =
          some (some (Operand.num (n : Nat))) := by
  refine ⟨by decide, by decide, by decide, ?_⟩
  rintro ⟨n, hn⟩
  have h2 : ((generate cgDefaults
      (.variableDeclaration [.variableDeclarator "x" (some (.literal 10))])
        none).instructions.get? 2).map Instr.operand = some none := by
    decide
  rw [h2] at hn
  simp at hn

/-- C5 (amended): the `STORE` emitted for a declaration carries the raw
symbol-table lookup as operand: the pre-seeded address when the name has an
entry, and — the `undefined` lookup being converted to `null` by
`addInstruction`'s default parameter — no operand at all (no fresh address,
no error, run still successful) when it does not. -/
theorem generate_declaration_store_operand (o : CGOptions) (name : String) (v : Rat)
    (symtab : List (String × String)) :
    (∀ a : Nat, (initSymbols symtab 0).lookup name = some a →
      (generate o (.variableDeclaration [.variableDeclarator name (some (.literal v))])
          (some symtab)).instructions.get? 2 =
        some ⟨2, .STORE, some (.num (a : Nat)), "存储到变量 " ++ name⟩) ∧
    ((initSymbols symtab 0).lookup name = none →
      (generate o (.variableDeclaration [.variableDeclarator name (some (.literal v))])
          (some symtab)).instructions.get? 2 =
        some ⟨2, .STORE, none, "存储到变量 " ++ name⟩ ∧
      (generate o (.variableDeclaration [.variableDeclarator name (some (.literal v))])
          (some symtab)).success = true) := by
  constructor
  · intro a hlk
    by_cases ho : o.optimizeCode = true <;>
      simp [generate, generateNode, generateDeclarations, declStoreOperand, lookupVar,
        entryState, addInstruction, hlk, ho, optimizeInstructions, peepholeScan,
        updateInstructionAddresses]
  · intro hlk
    by_cases ho : o.optimizeCode = true <;>
      constructor <;>
        simp [generate, generateNode, generateDeclarations, declStoreOperand, lookupVar,
          entryState, addInstruction, hlk, ho, optimizeInstructions, peepholeScan,
          updateInstructionAddresses]

/-- Witness for `generate_declaration_store_operand`: the pre-seeded case
with table entry `x -> 0` and the absent case with an empty table. -/
theorem generate_declaration_store_operand_witness :
    ((initSymbols [("x", "variable")] 0).lookup "x" = some 0 ∧
     (generate cgDefaults
        (.variableDeclaration [.variableDeclarator "x" (some (.literal 10))])
          (some [("x", "variable")])).instructions.get? 2 =
       some ⟨2, .STORE, some (.num ((0 : Nat) : Nat)), "存储到变量 " ++ "x"⟩) ∧
    ((initSymbols [] 0).lookup "x" = none ∧
     (generate cgDefaults
        (.variableDeclaration [.variableDeclarator "x" (some (.literal 10))])
          (some [])).instructions.get? 2 =
       some ⟨2, .STORE, none, "存储到变量 " ++ "x"⟩) :=
  ⟨⟨by decide, (generate_declaration_store_operand cgDefaults "x" 10
      [("x", "variable")]).1 0 (by decide)⟩,
   ⟨by decide, ((generate_declaration_store_operand cgDefaults "x" 10 []).2
      (by decide)).1⟩⟩

/-- C9: the code generator's dispatch does not recognise the optimizer's
`NumericLiteral` tag: generating such a node emits no instruction, records
one non-fatal unsupported-node warning, and throws no error — whereas a
`Literal` node emits `LOAD`; hence a program whose literal was produced by
the constant folder generates no `LOAD` for it (only `HALT` survives). -/
theorem generateNode_numericLiteral_unsupported (v : Rat) (s : CGState) :
    (generateNode (.numericLiteral v) s).1.instructions = s.instructions ∧
    (generateNode (.numericLiteral v) s).1.warnings =
      s.warnings ++ ["不支持的节点类型: NumericLiteral"] ∧
    (generateNode (.numericLiteral v) s).2 = none ∧
    (generateNode (.literal v) s).1.instructions =
      s.instructions ++
        [⟨s.instructions.length, .LOAD, some (.num v), "加载常量 " ++ toString v⟩] ∧
    (generate cgDefaults (.program [.expressionStatement (.numericLiteral v)])
        none).instructions.map Instr.opcode = [.HALT] := by
  refine ⟨rfl, by simp [generateNode, typeName], rfl,
    by simp [generateNode, addInstruction], ?_⟩
  simp [generate, entryState, generateNode, generateNodeList, addInstruction, typeName,
    generateAssembly, assemblyLines, optimizeInstructions, peepholeScan,
    updateInstructionAddresses, cgDefaults]

/-- C10: a fatal generation error aborts the whole run: everything after the
failing statement is ignored (appending further sibling statements leaves
the outcome unchanged), the `HALT` epilogue is never emitted, the rendered
assembly stays the empty string, the single error is reported, and
`success = false`. -/
theorem generate_fatal_error_aborts (o : CGOptions) (b1 b2 : List Node)
    (symtab : Option (List (String × String))) (e : String)
    (h : (generateNodeList b1 (entryState symtab)).2 = some e) :
    generate o (.program (b1 ++ b2)) symtab = generate o (.program b1) symtab ∧
    (generate o (.program b1) symtab).success = false ∧
    (generate o (.program b1) symtab).assembly = "" ∧
    (generate o (.program b1) symtab).errors = [e] ∧
    ∀ inst ∈ (generate o (.program b1) symtab).instructions,
      inst.opcode ≠ Opcode.HALT := by
  have happ := generateNodeList_append_of_error b1 b2 (entryState symtab) e h
  rcases hg : generateNodeList b1 (entryState symtab) with ⟨s2, e1⟩
  have he1 : e1 = some e := by rw [hg] at h; exact h
  subst he1
  have hins : (generate o (.program b1) symtab).instructions = s2.instructions := by
    simp only [generate, generateNode]
    rw [hg]
  refine ⟨?_, ?_, ?_, ?_, ?_⟩
  · simp only [generate, generateNode]
    rw [happ]
  · simp only [generate, generateNode]
    rw [hg]
  · simp only [generate, generateNode]
    rw [hg]
  · simp only [generate, generateNode]
    rw [hg]
  · intro inst hmem
    have hext := generateNodeList_noHalt b1 (entryState symtab)
    rw [hg] at hext
    rw [hins] at hmem
    rcases hext inst hmem with hmem2 | hop
    · have hi : inst = ⟨0, .PUSH, some (.num 0), "程序开始，初始化栈帧"⟩ := by
        simpa [entryState, addInstruction] using hmem2
      rw [hi]
      decide
    · exact hop

/-- Witness for `generate_fatal_error_aborts`: an undefined identifier `q`
followed by a print statement that is never generated. -/
theorem generate_fatal_error_aborts_witness :
    (generateNodeList [.identifier "q"] (entryState none)).2 = some "未定义的变量: q" ∧
    generate cgDefaults (.program ([.identifier "q"] ++ [.printStatement (.literal 1)]))
        none =
      generate cgDefaults (.program [.identifier "q"]) none ∧
    (generate cgDefaults (.program [.identifier "q"]) none).success = false ∧
    (generate cgDefaults (.program [.identifier "q"]) none).assembly = "" :=
  ⟨by decide,
   (generate_fatal_error_aborts cgDefaults [.identifier "q"]
     [.printStatement (.literal 1)] none "未定义的变量: q" (by decide)).1,
   (generate_fatal_error_aborts cgDefaults [.identifier "q"]
     [.printStatement (.literal 1)] none "未定义的变量: q" (by decide)).2.1,
   (generate_fatal_error_aborts cgDefaults [.identifier "q"]
     [.printStatement (.literal 1)] none "未定义的变量: q" (by decide)).2.2.1⟩
